import Mathlib

/-!
Verification development for the DeltaBrush editing/geometry kernel.

Modelling conventions, used throughout:
* `f32` scalars are modelled as exact rationals (`ℚ`); `f32::EPSILON = 2⁻²³` is
  modelled exactly by `f32Epsilon`.  All comparisons and branches of the source
  are mirrored on these rationals.
* `Vec<T>` is modelled as `List T`, `u32`/`usize` indices as `ℕ`, and `HashMap`
  as an association list with last-write-wins insertion, mirroring
  `HashMap::insert` semantics.
* the square root in `Vec3::length` is irrational; whenever the source only
  compares lengths of vectors (raycast distance ordering), the embedding stores
  the squared length instead.  Since `Real.sqrt` is strictly monotone on
  nonnegative reals, every comparison of lengths in the source agrees with the
  corresponding comparison of squared lengths in the model.
* definitions whose doc comment starts with `Modelled from the spec:` embed
  code of the repository that is referenced by the sources but whose defining
  file is not among them (the `geometry` module, the `Dual`/`InnerProduct`
  trait implementations, and the position/rotation/scale `Transform` methods);
  they follow the specification's description of those items.
-/

namespace DeltaBrush

/-- Machine epsilon of the `f32` scalar type, `f32::EPSILON = 2⁻²³`, as an
exact rational. -/
def f32Epsilon : ℚ := 1 / 2 ^ 23

/-- Vector (1-blade); source: `algebra.rs`, `struct Vec3`. -/
structure Vec3 where
  x : ℚ
  y : ℚ
  z : ℚ
deriving DecidableEq, Repr, Inhabited

/-- Bivector (2-blade); source: `algebra.rs`, `struct Bivec3`. -/
structure Bivec3 where
  xy : ℚ
  xz : ℚ
  yz : ℚ
deriving DecidableEq, Repr, Inhabited

/-- Trivector (3-blade); source: `algebra.rs`, `struct Trivec3`. -/
structure Trivec3 where
  xyz : ℚ
deriving DecidableEq, Repr, Inhabited

/-- Componentwise addition; source: `algebra.rs`, `impl Add<Vec3> for Vec3`. -/
instance : Add Vec3 := ⟨fun a b => ⟨a.x + b.x, a.y + b.y, a.z + b.z⟩⟩

/-- Componentwise subtraction; source: `algebra.rs`, `impl Sub for Vec3`. -/
instance : Sub Vec3 := ⟨fun a b => ⟨a.x - b.x, a.y - b.y, a.z - b.z⟩⟩

/-- Scalar multiplication; source: `algebra.rs`, `impl Mul<f32> for Vec3`. -/
instance : HMul Vec3 ℚ Vec3 := ⟨fun v s => ⟨v.x * s, v.y * s, v.z * s⟩⟩

/-- Scalar multiplication on the left; source: `algebra.rs`,
`impl Mul<Vec3> for f32`. -/
instance : HMul ℚ Vec3 Vec3 := ⟨fun s v => ⟨v.x * s, v.y * s, v.z * s⟩⟩

/-- Unfolding lemma for vector addition. -/
@[simp] theorem Vec3.add_def (a b : Vec3) :
    a + b = ⟨a.x + b.x, a.y + b.y, a.z + b.z⟩ := rfl

/-- Unfolding lemma for vector subtraction. -/
@[simp] theorem Vec3.sub_def (a b : Vec3) :
    a - b = ⟨a.x - b.x, a.y - b.y, a.z - b.z⟩ := rfl

/-- Unfolding lemma for right scalar multiplication. -/
@[simp] theorem Vec3.mul_scalar_def (v : Vec3) (s : ℚ) :
    v * s = Vec3.mk (v.x * s) (v.y * s) (v.z * s) := rfl

/-- Unfolding lemma for left scalar multiplication. -/
@[simp] theorem Vec3.scalar_mul_def (v : Vec3) (s : ℚ) :
    s * v = Vec3.mk (v.x * s) (v.y * s) (v.z * s) := rfl

/-- Wedge product of two vectors; source: `algebra.rs`,
`impl BitXor for Vec3`. -/
def Vec3.wedge (a b : Vec3) : Bivec3 :=
  ⟨a.x * b.y - a.y * b.x, a.x * b.z - a.z * b.x, a.y * b.z - a.z * b.y⟩

/-- Wedge product of a vector and a bivector; source: `algebra.rs`,
`impl BitXor<Bivec3> for Vec3`. -/
def Vec3.wedgeBivec (a : Vec3) (b : Bivec3) : Trivec3 :=
  ⟨a.x * b.yz - a.y * b.xz + a.z * b.xy⟩

/-- Wedge product of a bivector and a vector; source: `algebra.rs`,
`impl BitXor<Vec3> for Bivec3`. -/
def Bivec3.wedgeVec (a : Bivec3) (b : Vec3) : Trivec3 :=
  ⟨a.xy * b.z - a.xz * b.y + a.yz * b.x⟩

/-- Dot product; source: `algebra.rs`, `Vec3::dot`. -/
def Vec3.dot (a b : Vec3) : ℚ :=
  a.x * b.x + a.y * b.y + a.z * b.z

/-- Cross product; source: `algebra.rs`, `Vec3::cross`. -/
def Vec3.cross (a b : Vec3) : Vec3 :=
  ⟨a.y * b.z - a.z * b.y, a.z * b.x - a.x * b.z, a.x * b.y - a.y * b.x⟩

/-- Squared length of a vector.  `Vec3::length` in `algebra.rs` is
`sqrt(x*x + y*y + z*z)`; the model stores the radicand, see the header note on
square roots. -/
def Vec3.lengthSq (a : Vec3) : ℚ :=
  a.x * a.x + a.y * a.y + a.z * a.z

/-- Modelled from the spec: the Hodge dual of a bivector, the `Dual`
implementation imported by `algorithms.rs` from `crate::algebra` but absent
from the sources.  The spec fixes it by `cross(a,b) = dual(a ∧ b)`, which
gives `dual ⟨xy, xz, yz⟩ = (yz, -xz, xy)`. -/
def Bivec3.dual (b : Bivec3) : Vec3 :=
  ⟨b.yz, -b.xz, b.xy⟩

/-- Modelled from the spec: the inner product of two vectors, the
`InnerProduct` implementation imported by `algorithms.rs` from
`crate::algebra` but absent from the sources; on two 1-blades it is the dot
product. -/
def Vec3.inner (a b : Vec3) : ℚ :=
  Vec3.dot a b

/-- Modelled from the spec: a point of 3-space, `geometry::Point3` (the
`geometry` module is referenced throughout the sources but absent from them);
it wraps a `Vec3` in its `vec3` field, as the field accesses in
`scene_graph.rs` and `half_edge_mesh.rs` show. -/
structure Point3 where
  vec3 : Vec3
deriving DecidableEq, Repr, Inhabited

/-- Modelled from the spec: a direction of 3-space, `geometry::Direction3`,
wrapping a `Vec3` (absent `geometry` module). -/
structure Direction3 where
  vec3 : Vec3
deriving DecidableEq, Repr, Inhabited

/-- Point3 constructor; `Point3::new` as used by `scene_graph.rs`. -/
def Point3.new (x y z : ℚ) : Point3 :=
  ⟨⟨x, y, z⟩⟩

/-- Modelled from the spec: a ray `{ origin, direction }` (`geometry::Ray3`,
absent module); `Ray3::direction()` returns the direction field. -/
structure Ray3 where
  origin : Point3
  direction : Direction3
deriving DecidableEq, Repr, Inhabited

/-- Modelled from the spec: a local-space hit `{ hit position, hit direction }`
(`geometry::HitResponse`, absent module), as constructed in
`algorithms.rs:44`. -/
structure HitResponse where
  hit_position : Point3
  hit_direction : Direction3
deriving DecidableEq, Repr, Inhabited

/-- Edge `B − A` of the Möller–Trumbore routine; source: `algorithms.rs:11`. -/
def mtEdge1 (a b : Point3) : Vec3 :=
  b.vec3 - a.vec3

/-- Edge `C − A` of the Möller–Trumbore routine; source: `algorithms.rs:12`. -/
def mtEdge2 (a c : Point3) : Vec3 :=
  c.vec3 - a.vec3

/-- The bivector `D ∧ edge2`; source: `algorithms.rs:14`. -/
def mtRayEdge2Plane (ray : Ray3) (a c : Point3) : Bivec3 :=
  Vec3.wedge ray.direction.vec3 (mtEdge2 a c)

/-- The determinant `edge1 ⋅ dual(D ∧ edge2)`; source: `algorithms.rs:15`. -/
def mtDet (ray : Ray3) (a b c : Point3) : ℚ :=
  Vec3.inner (mtEdge1 a b) (mtRayEdge2Plane ray a c).dual

/-- The translated origin `s = O − A`; source: `algorithms.rs:21`. -/
def mtS (ray : Ray3) (a : Point3) : Vec3 :=
  ray.origin.vec3 - a.vec3

/-- The barycentric parameter `u = (1/det) * s ⋅ dual(D ∧ edge2)`; source:
`algorithms.rs:23`. -/
def mtU (ray : Ray3) (a b c : Point3) : ℚ :=
  (1 / mtDet ray a b c) * Vec3.inner (mtS ray a) (mtRayEdge2Plane ray a c).dual

/-- The bivector `s ∧ edge1`; source: `algorithms.rs:29`. -/
def mtSEdge1Plane (ray : Ray3) (a b : Point3) : Bivec3 :=
  Vec3.wedge (mtS ray a) (mtEdge1 a b)

/-- The barycentric parameter `v = (1/det) * D ⋅ dual(s ∧ edge1)`; source:
`algorithms.rs:31`. -/
def mtV (ray : Ray3) (a b c : Point3) : ℚ :=
  (1 / mtDet ray a b c) * Vec3.inner ray.direction.vec3 (mtSEdge1Plane ray a b).dual

/-- The ray parameter `t = (1/det) * (edge2 ∧ (s ∧ edge1)).xyz`; source:
`algorithms.rs:37`. -/
def mtT (ray : Ray3) (a b c : Point3) : ℚ :=
  (1 / mtDet ray a b c) * (Vec3.wedgeBivec (mtEdge2 a c) (mtSEdge1Plane ray a b)).xyz

/-- The exterior-algebra Möller–Trumbore ray/triangle intersection; source:
`algorithms.rs:6-55`, `moller_trumbore_intersection_exterior_algebra`.  The
branch structure mirrors the source exactly: the determinant window test, the
`u ∉ [0,1]` rejection, the `v < 0 ∨ u + v > 1` rejection, and the `t > ε`
acceptance. -/
def mollerTrumboreIntersectionExteriorAlgebra (ray : Ray3) (a b c : Point3) :
    Option HitResponse :=
  let det := mtDet ray a b c
  if -f32Epsilon < det ∧ det < f32Epsilon then
    none
  else
    let u := mtU ray a b c
    if u < 0 ∨ 1 < u then
      none
    else
      let v := mtV ray a b c
      if v < 0 ∨ 1 < u + v then
        none
      else
        let t := mtT ray a b c
        if f32Epsilon < t then
          let scaledDirection := ray.direction.vec3 * t
          some ⟨⟨ray.origin.vec3 + scaledDirection⟩, ⟨scaledDirection⟩⟩
        else
          none

/-- Ray used to exhibit the `u + v > 1` rejection: origin `(3/4, 3/4, -1)`,
direction `(0, 0, 1)`. -/
def uvRejectRay : Ray3 :=
  ⟨Point3.new (3/4) (3/4) (-1), ⟨⟨0, 0, 1⟩⟩⟩

/-- Triangle corner `A = (0,0,0)` of the rejection example. -/
def uvRejectA : Point3 := Point3.new 0 0 0

/-- Triangle corner `B = (1,0,0)` of the rejection example. -/
def uvRejectB : Point3 := Point3.new 1 0 0

/-- Triangle corner `C = (0,1,0)` of the rejection example. -/
def uvRejectC : Point3 := Point3.new 0 1 0

/-- Values of the Möller–Trumbore parameters at the rejection example:
`det = -1`, `u = 3/4`, `v = 3/4`, `t = 1`. -/
theorem uvReject_values :
    mtDet uvRejectRay uvRejectA uvRejectB uvRejectC = -1 ∧
    mtU uvRejectRay uvRejectA uvRejectB uvRejectC = 3/4 ∧
    mtV uvRejectRay uvRejectA uvRejectB uvRejectC = 3/4 ∧
    mtT uvRejectRay uvRejectA uvRejectB uvRejectC = 1 := by
  norm_num [mtDet, mtU, mtV, mtT, mtS, mtEdge1, mtEdge2, mtRayEdge2Plane,
    mtSEdge1Plane, Vec3.inner, Vec3.dot, Vec3.wedge, Vec3.wedgeBivec,
    Bivec3.dual, uvRejectRay, uvRejectA, uvRejectB, uvRejectC, Point3.new]

/-- C1, counterexample: an explicit ray and triangle whose barycentric
parameters satisfy `u ∈ [0,1]`, `v ≥ 0`, `u + v > 1` and whose `t` exceeds
epsilon, on which `moller_trumbore_intersection_exterior_algebra` nevertheless
returns no hit — refuting the claim that the final routine does not reject on
`u + v > 1`. -/
theorem mt_no_uv_reject_counterexample :
    (0 ≤ mtU uvRejectRay uvRejectA uvRejectB uvRejectC ∧
      mtU uvRejectRay uvRejectA uvRejectB uvRejectC ≤ 1 ∧
      0 ≤ mtV uvRejectRay uvRejectA uvRejectB uvRejectC ∧
      1 < mtU uvRejectRay uvRejectA uvRejectB uvRejectC +
            mtV uvRejectRay uvRejectA uvRejectB uvRejectC ∧
      f32Epsilon < mtT uvRejectRay uvRejectA uvRejectB uvRejectC) ∧
    mollerTrumboreIntersectionExteriorAlgebra uvRejectRay uvRejectA uvRejectB uvRejectC
      = none := by
  obtain ⟨hdet, hu, hv, ht⟩ := uvReject_values
  refine ⟨⟨?_, ?_, ?_, ?_, ?_⟩, ?_⟩
  · rw [hu]; norm_num
  · rw [hu]; norm_num
  · rw [hv]; norm_num
  · rw [hu, hv]; norm_num
  · rw [ht]; norm_num [f32Epsilon]
  · unfold mollerTrumboreIntersectionExteriorAlgebra
    rw [hdet, hu, hv]
    norm_num [f32Epsilon]

/-- C1, amended: the final (exterior-algebra) Möller–Trumbore routine does
reject on `u + v > 1` — for every ray and triangle whose barycentric parameter
`u` lies in `[0,1]` and whose parameters satisfy `u + v > 1`, the routine
returns no hit (line 32 of `algorithms.rs`). -/
theorem mt_rejects_u_plus_v_gt_one (ray : Ray3) (a b c : Point3)
    (hu0 : 0 ≤ mtU ray a b c) (hu1 : mtU ray a b c ≤ 1)
    (huv : 1 < mtU ray a b c + mtV ray a b c) :
    mollerTrumboreIntersectionExteriorAlgebra ray a b c = none := by
  unfold mollerTrumboreIntersectionExteriorAlgebra
  by_cases hdet : -f32Epsilon < mtDet ray a b c ∧ mtDet ray a b c < f32Epsilon
  · simp [hdet]
  · have hu : ¬ (mtU ray a b c < 0 ∨ 1 < mtU ray a b c) := by
      push_neg
      exact ⟨hu0, hu1⟩
    simp only [hdet, if_false, hu, if_true]
    simp [huv]

/-- Witness for `mt_rejects_u_plus_v_gt_one`: the hypotheses hold at the
concrete rejection example and the routine returns `none` there. -/
theorem mt_rejects_u_plus_v_gt_one_witness :
    mollerTrumboreIntersectionExteriorAlgebra uvRejectRay uvRejectA uvRejectB uvRejectC
      = none :=
  mt_rejects_u_plus_v_gt_one uvRejectRay uvRejectA uvRejectB uvRejectC
    (by rw [uvReject_values.2.1]; norm_num)
    (by rw [uvReject_values.2.1]; norm_num)
    (by rw [uvReject_values.2.1, uvReject_values.2.2.1]; norm_num)

/-- Quaternion `(x, y, z, w)`; the final `Transform` stores its rotation as a
`[f32; 4]` in `xyzw` order (spec §6; `algebra.rs:184,192` accesses
`transform.rotation` as such an array). -/
structure Quat where
  x : ℚ
  y : ℚ
  z : ℚ
  w : ℚ
deriving DecidableEq, Repr, Inhabited

/-- Quaternion conjugate `[-q0, -q1, -q2, q3]`; source: `algebra.rs:192`. -/
def Quat.conj (q : Quat) : Quat :=
  ⟨-q.x, -q.y, -q.z, q.w⟩

/-- Squared norm `x² + y² + z² + w²` of a quaternion. -/
def Quat.normSq (q : Quat) : ℚ :=
  q.x * q.x + q.y * q.y + q.z * q.z + q.w * q.w

/-- The quaternion sandwich `q v q̄` on a pure-vector quaternion `v`, in the
standard expanded form: with `u = (qx, qy, qz)`,
`q v q̄ = (w² − u⋅u) v + 2 (u⋅v) u + 2 w (u × v)`. -/
def quatSandwich (q : Quat) (v : Vec3) : Vec3 :=
  let u : Vec3 := ⟨q.x, q.y, q.z⟩
  ((q.w * q.w - Vec3.dot u u) * v) + ((2 * Vec3.dot u v) * u) +
    ((2 * q.w) * Vec3.cross u v)

/-- Modelled from the spec: `Transform::rotate_vec3_by_quat` applied to the
output of `Transform::normalize_quat` (both methods are referenced from
`algebra.rs:184-193` but their defining file is absent from the sources; the
spec fixes the semantics: the rotation quaternion is re-normalized before use
and rotation of a vector by a unit quaternion `q` is the sandwich `q v q⁻¹`).
Since the sandwich is quadratic in `q`, rotating by `q/‖q‖` equals the
sandwich by `q` divided by `‖q‖² = x²+y²+z²+w²`, which is exact rational
arithmetic; a zero quaternion yields the zero vector. -/
def rotateByNormalizedQuat (q : Quat) (v : Vec3) : Vec3 :=
  (1 / Quat.normSq q) * quatSandwich q v

/-- The final transform: position, rotation quaternion (xyzw) and scale
(spec §3; the `Transform` used by `algebra.rs` and `scene_graph.rs` stores
`position : [f32; 3]`, `rotation : [f32; 4]`, `scale : [f32; 3]`; its
defining file is absent from the sources). -/
structure Transform where
  position : Vec3
  rotation : Quat
  scale : Vec3
deriving DecidableEq, Repr, Inhabited

/-- Modelled from the spec: `Transform::identity()` — zero position, identity
quaternion, unit scale. -/
def Transform.identity : Transform :=
  ⟨⟨0, 0, 0⟩, ⟨0, 0, 0, 1⟩, ⟨1, 1, 1⟩⟩

/-- Modelled from the spec: `Transform::from_position_rotation_scale`. -/
def Transform.from_position_rotation_scale (p : Vec3) (q : Quat) (s : Vec3) :
    Transform :=
  ⟨p, q, s⟩

/-- Forward vector transform — scale, then rotate by the re-normalized
quaternion; source: `algebra.rs:175-186` (`impl Transformable for Vec3`,
`transform`). -/
def Vec3.transformBy (v : Vec3) (t : Transform) : Vec3 :=
  let scaled : Vec3 := ⟨v.x * t.scale.x, v.y * t.scale.y, v.z * t.scale.z⟩
  rotateByNormalizedQuat t.rotation scaled

/-- Inverse vector transform — rotate by the conjugate of the re-normalized
quaternion, then multiply componentwise by the guarded inverse scale (`0` when
the scale component is `0`); source: `algebra.rs:189-201`
(`impl Transformable for Vec3`, `inverse_transform`).  Conjugating after
normalizing equals normalizing the conjugate (the norm is unchanged), so the
model rotates by the conjugate quaternion through `rotateByNormalizedQuat`. -/
def Vec3.inverseTransformBy (v : Vec3) (t : Transform) : Vec3 :=
  let unrotated := rotateByNormalizedQuat t.rotation.conj v
  let invX : ℚ := if t.scale.x ≠ 0 then 1 / t.scale.x else 0
  let invY : ℚ := if t.scale.y ≠ 0 then 1 / t.scale.y else 0
  let invZ : ℚ := if t.scale.z ≠ 0 then 1 / t.scale.z else 0
  ⟨unrotated.x * invX, unrotated.y * invY, unrotated.z * invZ⟩

/-- C9: the inverse vector transform is a total function (it returns a vector
for every input, never an error value): it rotates the vector by the conjugate
of the transform's re-normalized quaternion and then divides componentwise by
the scale, and every scale component equal to `0` makes the corresponding
output component `0`. -/
theorem inverse_transform_vec3_spec (v : Vec3) (t : Transform) :
    Vec3.inverseTransformBy v t =
      { x := if t.scale.x = 0 then 0
             else (rotateByNormalizedQuat t.rotation.conj v).x / t.scale.x,
        y := if t.scale.y = 0 then 0
             else (rotateByNormalizedQuat t.rotation.conj v).y / t.scale.y,
        z := if t.scale.z = 0 then 0
             else (rotateByNormalizedQuat t.rotation.conj v).z / t.scale.z } := by
  unfold Vec3.inverseTransformBy
  simp only [Vec3.mk.injEq]
  refine ⟨?_, ?_, ?_⟩
  · rcases eq_or_ne t.scale.x (0 : ℚ) with h | h
    · simp [h]
    · simp [h, div_eq_mul_inv]
  · rcases eq_or_ne t.scale.y (0 : ℚ) with h | h
    · simp [h]
    · simp [h, div_eq_mul_inv]
  · rcases eq_or_ne t.scale.z (0 : ℚ) with h | h
    · simp [h]
    · simp [h, div_eq_mul_inv]

/-- Modelled from the spec: forward point transform — rotate-scaled vector,
then translate (`apply_to_point`, spec §4.2; the `Transformable` impl for
`Point3` is absent from the sources). -/
def Point3.transformBy (p : Point3) (t : Transform) : Point3 :=
  ⟨Vec3.transformBy p.vec3 t + t.position⟩

/-- Modelled from the spec: inverse point transform — subtract the
translation, then inverse-apply the vector transform
(`inverse_apply_to_point`, spec §4.2). -/
def Point3.inverseTransformBy (p : Point3) (t : Transform) : Point3 :=
  ⟨Vec3.inverseTransformBy (p.vec3 - t.position) t⟩

/-- Modelled from the spec: directions transform like vectors (no
translation). -/
def Direction3.transformBy (d : Direction3) (t : Transform) : Direction3 :=
  ⟨Vec3.transformBy d.vec3 t⟩

/-- Modelled from the spec: inverse direction transform. -/
def Direction3.inverseTransformBy (d : Direction3) (t : Transform) :
    Direction3 :=
  ⟨Vec3.inverseTransformBy d.vec3 t⟩

/-- Modelled from the spec: a ray is inverse-transformed into a node's local
space componentwise — origin as a point, direction as a vector
(`ray.inverse_transform(world_transform)`, `scene_graph.rs:205`). -/
def Ray3.inverseTransformBy (r : Ray3) (t : Transform) : Ray3 :=
  ⟨Point3.inverseTransformBy r.origin t, Direction3.inverseTransformBy r.direction t⟩

/-- Modelled from the spec: a local hit is mapped back to world space
componentwise — hit position as a point, hit direction as a vector
(`this_hit.transform(world_transform)`, `scene_graph.rs:222`). -/
def HitResponse.transformBy (h : HitResponse) (t : Transform) : HitResponse :=
  ⟨Point3.transformBy h.hit_position t, Direction3.transformBy h.hit_direction t⟩

/-- Quaternion multiplication (Hamilton product), used by the world-transform
composition. -/
def Quat.mul (p q : Quat) : Quat :=
  ⟨p.w * q.x + p.x * q.w + p.y * q.z - p.z * q.y,
   p.w * q.y - p.x * q.z + p.y * q.w + p.z * q.x,
   p.w * q.z + p.x * q.y - p.y * q.x + p.z * q.w,
   p.w * q.w - p.x * q.x - p.y * q.y - p.z * q.z⟩

/-- Modelled from the spec: `compose_with_parent(child, parent)` yields the
world transform `parent ∘ child` (spec §4.2; the method on the final
position/rotation/scale `Transform` is called at `scene_graph.rs:107,157` but
its defining file is absent from the sources): the world scale is the
componentwise product, the world rotation the quaternion product, and the
world position the parent transform applied to the child position. -/
def Transform.compose_with_parent (child parent : Transform) : Transform :=
  { position := Vec3.transformBy child.position parent + parent.position,
    rotation := Quat.mul parent.rotation child.rotation,
    scale := ⟨parent.scale.x * child.scale.x, parent.scale.y * child.scale.y,
              parent.scale.z * child.scale.z⟩ }

/-- Flat triangle mesh; source: `mesh.rs`, `struct Mesh` — flat coordinate
triples, flat index triples, optional normals. -/
structure Mesh where
  vertex_coords : List ℚ
  face_indices : List ℕ
  normals : Option (List ℚ)
deriving DecidableEq, Repr, Inhabited

/-- Number of vertices, `vertex_coords.len() / 3`; source: `mesh.rs:39`. -/
def Mesh.vertexCount (m : Mesh) : ℕ :=
  m.vertex_coords.length / 3

/-- Number of faces, `face_indices.len() / 3`; source: `mesh.rs:44`. -/
def Mesh.faceCount (m : Mesh) : ℕ :=
  m.face_indices.length / 3

/-- Exact 3-chunks of a list, dropping any remainder; models
`chunks_exact(3)` as used in `half_edge_mesh.rs:129,142` and
`scene_graph.rs:210`. -/
def chunks3 {α : Type} : List α → List (α × α × α)
  | a :: b :: c :: rest => (a, b, c) :: chunks3 rest
  | _ => []

/-- The cube flat mesh: 8 vertices at `±size/2`, 12 triangles, in exactly the
push order of `mesh.rs:49-84` (`Mesh::create_cube`). -/
def Mesh.createCube (size : ℚ) : Mesh :=
  let half := size / 2
  { vertex_coords :=
      [-half, -half, -half,  half, -half, -half,  half,  half, -half,
       -half,  half, -half, -half, -half,  half,  half, -half,  half,
        half,  half,  half, -half,  half,  half],
    face_indices :=
      [0, 2, 1,  0, 3, 2,  5, 7, 4,  5, 6, 7,  3, 6, 2,  3, 7, 6,
       4, 1, 5,  4, 0, 1,  1, 6, 5,  1, 2, 6,  4, 3, 0,  4, 7, 3],
    normals := none }

/-- Half-edge-mesh vertex: position plus optional seed half-edge index;
source: `half_edge_mesh.rs`, `struct Vertex`. -/
structure HEVertex where
  position : Point3
  seed_half_edge : Option ℕ
deriving DecidableEq, Repr, Inhabited

/-- Half-edge record; source: `half_edge_mesh.rs`, `struct HalfEdge`.  The
index newtypes `VertexIndex`/`HalfEdgeIndex`/`FaceIndex` are modelled as plain
naturals. -/
structure HalfEdge where
  target_vertex_index : ℕ
  twin_index : Option ℕ
  next_edge : ℕ
  prev_edge : ℕ
  face_index : Option ℕ
deriving DecidableEq, Repr, Inhabited

/-- Face record: a seed half-edge; source: `half_edge_mesh.rs`,
`struct Face`. -/
structure HEFace where
  seed_half_edge : ℕ
deriving DecidableEq, Repr, Inhabited

/-- The half-edge mesh; source: `half_edge_mesh.rs`,
`struct HalfEdgeMesh`. -/
structure HalfEdgeMesh where
  vertices : List HEVertex
  half_edges : List HalfEdge
  faces : List HEFace
deriving DecidableEq, Repr, Inhabited

/-- Indexing helper `HalfEdgeMesh::half_edge`; the source indexes the vector
directly (panicking out of range), the model returns the default record out of
range — all theorems only index in range. -/
def HalfEdgeMesh.halfEdge (m : HalfEdgeMesh) (i : ℕ) : HalfEdge :=
  m.half_edges.getD i default

/-- Indexing helper `HalfEdgeMesh::vertex` (same out-of-range convention as
`HalfEdgeMesh.halfEdge`). -/
def HalfEdgeMesh.vertexAt (m : HalfEdgeMesh) (i : ℕ) : HEVertex :=
  m.vertices.getD i default

/-- The source vertex of a half-edge — the target of its `prev`; this is how
`from_mesh` computes the source when building the twin map
(`half_edge_mesh.rs:212,221`). -/
def HalfEdgeMesh.sourceVertex (m : HalfEdgeMesh) (i : ℕ) : ℕ :=
  (m.halfEdge (m.halfEdge i).prev_edge).target_vertex_index

/-- The three half-edges created for input triangle number `k` with vertices
`(v0, v1, v2)` — directed targets `v1, v2, v0`, next/prev wired cyclically
inside the triple, face `k`, twin still unset; source:
`half_edge_mesh.rs:152-189`. -/
def triangleHalfEdges (k : ℕ) (t : ℕ × ℕ × ℕ) : List HalfEdge :=
  [⟨t.2.1, none, 3 * k + 1, 3 * k + 2, some k⟩,
   ⟨t.2.2, none, 3 * k + 2, 3 * k,     some k⟩,
   ⟨t.1,   none, 3 * k,     3 * k + 1, some k⟩]

/-- All half-edges of `from_mesh`, triangle by triangle, before twin
assignment; `k` is the index of the first triangle. -/
def buildHalfEdges (k : ℕ) : List (ℕ × ℕ × ℕ) → List HalfEdge
  | [] => []
  | t :: rest => triangleHalfEdges k t ++ buildHalfEdges (k + 1) rest

/-- All faces of `from_mesh`: face `k` seeded at half-edge `3k`; source:
`half_edge_mesh.rs:197-201`. -/
def buildFaces (k : ℕ) : List (ℕ × ℕ × ℕ) → List HEFace
  | [] => []
  | _ :: rest => ⟨3 * k⟩ :: buildFaces (k + 1) rest

/-- Set a vertex's seed half-edge if it is still unset; source:
`half_edge_mesh.rs:162-164` (and the analogous blocks for the second and third
corner). -/
def setSeedIfNone (vs : List HEVertex) (vi he : ℕ) : List HEVertex :=
  match vs[vi]? with
  | some v =>
      if v.seed_half_edge = none then
        vs.set vi { v with seed_half_edge := some he }
      else vs
  | none => vs

/-- The seed-setting pass of `from_mesh`: for triangle `k = (v0,v1,v2)` the
corners are seeded (first touch wins) with half-edges `3k`, `3k+1`, `3k+2`
respectively. -/
def buildSeeds (k : ℕ) (vs : List HEVertex) : List (ℕ × ℕ × ℕ) → List HEVertex
  | [] => vs
  | t :: rest =>
      buildSeeds (k + 1)
        (setSeedIfNone (setSeedIfNone (setSeedIfNone vs t.1 (3 * k))
          t.2.1 (3 * k + 1)) t.2.2 (3 * k + 2)) rest

/-- The directed vertex pair `(source, target)` of half-edge `i` in the
pre-twin half-edge array; source: `half_edge_mesh.rs:212-215,221-224`. -/
def pairOf (hes : List HalfEdge) (i : ℕ) : ℕ × ℕ :=
  ((hes.getD (hes.getD i default).prev_edge default).target_vertex_index,
   (hes.getD i default).target_vertex_index)

/-- Insert into an association list with last-write-wins replacement,
modelling `HashMap::insert`. -/
def insertKV (mp : List ((ℕ × ℕ) × ℕ)) (k : ℕ × ℕ) (v : ℕ) :
    List ((ℕ × ℕ) × ℕ) :=
  if mp.any (fun p => p.1 = k) then
    mp.map (fun p => if p.1 = k then (k, v) else p)
  else
    (k, v) :: mp

/-- Lookup in the association list, modelling `HashMap::get`. -/
def lookupKV (mp : List ((ℕ × ℕ) × ℕ)) (k : ℕ × ℕ) : Option ℕ :=
  (mp.find? (fun p => p.1 = k)).map (fun p => p.2)

/-- Build the map from directed vertex pair to half-edge index by inserting
every half-edge in index order; source: `half_edge_mesh.rs:208-216`. -/
def buildEdgeMap (kvs : List ((ℕ × ℕ) × ℕ)) : List ((ℕ × ℕ) × ℕ) :=
  kvs.foldl (fun mp kv => insertKV mp kv.1 kv.2) []

/-- The key/value pairs inserted into the edge map: `(pair i, i)` for every
half-edge index `i`. -/
def edgeMapKVs (hes : List HalfEdge) : List ((ℕ × ℕ) × ℕ) :=
  (List.range hes.length).map (fun i => (pairOf hes i, i))

/-- The collected twin of half-edge `i`: the map entry for the reversed pair
`(target, source)`; source: `half_edge_mesh.rs:219-226`. -/
def collectTwins (hes : List HalfEdge) : List (Option ℕ) :=
  (List.range hes.length).map
    (fun i => lookupKV (buildEdgeMap (edgeMapKVs hes)) (pairOf hes i).swap)

/-- Construction of a half-edge mesh from a flat triangle mesh; source:
`half_edge_mesh.rs:122-237`, `HalfEdgeMesh::from_mesh`: vertices from the
coordinate triples (seeds set later), three half-edges and one face per index
triple, vertex seeds on first touch, then twins assigned by looking up each
half-edge's reversed directed pair in the edge map. -/
def HalfEdgeMesh.fromMesh (m : Mesh) : HalfEdgeMesh :=
  let tris := chunks3 m.face_indices
  let vertices0 : List HEVertex :=
    (chunks3 m.vertex_coords).map
      (fun c => ⟨Point3.new c.1 c.2.1 c.2.2, none⟩)
  let vertices := buildSeeds 0 vertices0 tris
  let hes := buildHalfEdges 0 tris
  let twins := collectTwins hes
  { vertices := vertices,
    half_edges := List.zipWith (fun he tw => { he with twin_index := tw }) hes twins,
    faces := buildFaces 0 tris }

/-- The emission loop of `to_mesh` for one face; source:
`half_edge_mesh.rs:326-345`: repeatedly step `current` to its `next`, stop on
return to the face's seed, otherwise emit the triple
`(source, next_vertex, prev_vertex)` and slide `prev_vertex` forward.  The
source loop is unbounded; the model carries fuel and returns the indices
emitted so far when it runs out (`to_mesh` passes enough fuel for every mesh
appearing in the theorems below). -/
def toMeshFaceLoop (m : HalfEdgeMesh) (seed sourceV : ℕ) :
    ℕ → ℕ → ℕ → List ℕ
  | 0, _, _ => []
  | fuel + 1, current, prevV =>
      let current' := (m.halfEdge current).next_edge
      if current' = seed then []
      else
        let nextV := (m.halfEdge current').target_vertex_index
        sourceV :: nextV :: prevV ::
          toMeshFaceLoop m seed sourceV fuel current' nextV

/-- The indices emitted by `to_mesh` for one face; source:
`half_edge_mesh.rs:311-347`: the face's seed half-edge points at the source
vertex, its `next` is skipped (its target initializes `prev_vertex`) and the
loop emits the fan. -/
def toMeshFace (m : HalfEdgeMesh) (f : HEFace) : List ℕ :=
  let pointing := m.halfEdge f.seed_half_edge
  let sourceV := pointing.target_vertex_index
  let current := pointing.next_edge
  let prevV := (m.halfEdge current).target_vertex_index
  toMeshFaceLoop m f.seed_half_edge sourceV (m.half_edges.length + 1) current prevV

/-- Conversion of a half-edge mesh back to a flat mesh; source:
`half_edge_mesh.rs:294-360`, `impl ToMesh for HalfEdgeMesh`: the coordinates
are the vertex positions flattened in order, the face indices the
concatenation of each face's emitted fan, normals absent. -/
def HalfEdgeMesh.toMesh (m : HalfEdgeMesh) : Mesh :=
  { vertex_coords :=
      (m.vertices.map
        (fun v => [v.position.vec3.x, v.position.vec3.y, v.position.vec3.z])).flatten,
    face_indices := (m.faces.map (toMeshFace m)).flatten,
    normals := none }

/-- One step of the outgoing-half-edge walk around a vertex: `twin(he).next`,
or `none` at a boundary; source: `half_edge_mesh.rs:273-282`. -/
def HalfEdgeMesh.outgoingStep (m : HalfEdgeMesh) (i : ℕ) : Option ℕ :=
  ((m.halfEdge i).twin_index).map (fun tw => (m.halfEdge tw).next_edge)

/-- The loop of `vertex_outgoing_half_edges`; source:
`half_edge_mesh.rs:270-283`: push the current half-edge, then follow
`twin(he).next`; stop at a boundary (no twin) or on returning to the seed.
The source loop is unbounded; the model carries fuel, `none` meaning the fuel
ran out (the termination theorem shows `half_edges.length + 1` always
suffices under the mesh invariants). -/
def vertexOutgoingAux (m : HalfEdgeMesh) (start : ℕ) :
    ℕ → ℕ → Option (List ℕ)
  | 0, _ => none
  | fuel + 1, current =>
      match (m.halfEdge current).twin_index with
      | none => some [current]
      | some tw =>
          let nxt := (m.halfEdge tw).next_edge
          if nxt = start then some [current]
          else (vertexOutgoingAux m start fuel nxt).map (fun rest => current :: rest)

/-- The fan of half-edges leaving vertex `v`; source:
`half_edge_mesh.rs:264-287`, `HalfEdgeMesh::vertex_outgoing_half_edges`: start
at the vertex's seed half-edge (empty result when there is none) and walk
`twin(he).next` until the seed returns or a boundary is reached. -/
def HalfEdgeMesh.vertexOutgoingHalfEdges (m : HalfEdgeMesh) (v : ℕ) :
    Option (List ℕ) :=
  match (m.vertexAt v).seed_half_edge with
  | none => some []
  | some s => vertexOutgoingAux m s (m.half_edges.length + 1) s

/-- The hand-written cube fixture: 8 vertices, 24 half-edges, 6 quad faces,
copied record by record from `half_edge_mesh.rs:50-118`
(`HalfEdgeMesh::create_cube`). -/
def HalfEdgeMesh.createCube (size : ℚ) : HalfEdgeMesh :=
  let half := size / 2
  { vertices :=
      [⟨Point3.new (-half) (-half) (-half), some 0⟩,
       ⟨Point3.new half (-half) (-half), some 4⟩,
       ⟨Point3.new half half (-half), some 8⟩,
       ⟨Point3.new (-half) half (-half), some 12⟩,
       ⟨Point3.new (-half) (-half) half, some 16⟩,
       ⟨Point3.new half (-half) half, some 20⟩,
       ⟨Point3.new half half half, some 5⟩,
       ⟨Point3.new (-half) half half, some 9⟩],
    half_edges :=
      [⟨1, some 7,  1,  3,  some 0⟩,
       ⟨2, some 11, 2,  0,  some 0⟩,
       ⟨3, some 15, 3,  1,  some 0⟩,
       ⟨0, some 19, 0,  2,  some 0⟩,
       ⟨5, some 17, 5,  7,  some 1⟩,
       ⟨6, some 21, 6,  4,  some 1⟩,
       ⟨2, some 9,  7,  5,  some 1⟩,
       ⟨1, some 0,  4,  6,  some 1⟩,
       ⟨4, some 18, 9,  11, some 2⟩,
       ⟨7, some 22, 10, 8,  some 2⟩,
       ⟨6, some 6,  11, 9,  some 2⟩,
       ⟨5, some 1,  8,  10, some 2⟩,
       ⟨0, some 16, 13, 15, some 3⟩,
       ⟨3, some 23, 14, 12, some 3⟩,
       ⟨7, some 10, 15, 13, some 3⟩,
       ⟨4, some 2,  12, 14, some 3⟩,
       ⟨4, some 12, 17, 19, some 4⟩,
       ⟨5, some 4,  18, 16, some 4⟩,
       ⟨1, some 8,  19, 17, some 4⟩,
       ⟨0, some 3,  16, 18, some 4⟩,
       ⟨2, some 14, 21, 23, some 5⟩,
       ⟨6, some 5,  22, 20, some 5⟩,
       ⟨7, some 9,  23, 21, some 5⟩,
       ⟨3, some 13, 20, 22, some 5⟩],
    faces := [⟨0⟩, ⟨4⟩, ⟨8⟩, ⟨12⟩, ⟨16⟩, ⟨20⟩] }

/-- The three directed vertex pairs of a triangle `(v0, v1, v2)`:
`(v0,v1), (v1,v2), (v2,v0)`. -/
def triangleDirectedPairs (t : ℕ × ℕ × ℕ) : List (ℕ × ℕ) :=
  [(t.1, t.2.1), (t.2.1, t.2.2), (t.2.2, t.1)]

/-- All directed vertex pairs of a flat mesh, triangle by triangle.  The
manifold-input hypothesis of the twin-symmetry claim — no directed vertex pair
occurs in more than one triangle — is `Nodup` of this list. -/
def Mesh.directedEdges (m : Mesh) : List (ℕ × ℕ) :=
  ((chunks3 m.face_indices).map triangleDirectedPairs).flatten

/-- A successful association-list lookup comes from a member with that key. -/
theorem lookupKV_mem {mp : List ((ℕ × ℕ) × ℕ)} {k : ℕ × ℕ} {v : ℕ}
    (h : lookupKV mp k = some v) : (k, v) ∈ mp := by
  unfold lookupKV at h
  rcases Option.map_eq_some'.mp h with ⟨⟨pk, pv⟩, hfind, hv⟩
  have hmem := List.mem_of_find?_eq_some hfind
  have hkey := List.find?_some hfind
  simp only [decide_eq_true_eq] at hkey hv
  subst hkey
  subst hv
  exact hmem

/-- Members of `insertKV` are the inserted pair or previous members. -/
theorem mem_insertKV {mp : List ((ℕ × ℕ) × ℕ)} {k : ℕ × ℕ} {v : ℕ}
    {p : (ℕ × ℕ) × ℕ} (h : p ∈ insertKV mp k v) : p = (k, v) ∨ p ∈ mp := by
  unfold insertKV at h
  split_ifs at h with hany
  · rcases List.mem_map.mp h with ⟨q, hq, hqe⟩
    by_cases hk : q.1 = k
    · simp only [hk, if_true] at hqe
      exact Or.inl hqe.symm
    · simp only [hk, if_false] at hqe
      exact Or.inr (hqe ▸ hq)
  · exact List.mem_cons.mp h

/-- Lookup finds the head when its key matches. -/
theorem lookupKV_cons_of_eq {q : (ℕ × ℕ) × ℕ} {mp : List ((ℕ × ℕ) × ℕ)}
    {k' : ℕ × ℕ} (h : q.1 = k') : lookupKV (q :: mp) k' = some q.2 := by
  rw [lookupKV, List.find?_cons_of_pos _ (by simpa using h)]
  rfl

/-- Lookup skips the head when its key differs. -/
theorem lookupKV_cons_of_ne {q : (ℕ × ℕ) × ℕ} {mp : List ((ℕ × ℕ) × ℕ)}
    {k' : ℕ × ℕ} (h : ¬ q.1 = k') : lookupKV (q :: mp) k' = lookupKV mp k' := by
  rw [lookupKV, List.find?_cons_of_neg _ (by simpa using h)]
  rfl

/-- Replacing the value at key `k` makes lookup of `k` find it, provided some
member has key `k`. -/
theorem find_map_replace_self {mp : List ((ℕ × ℕ) × ℕ)} {k : ℕ × ℕ} {v : ℕ}
    (hex : ∃ p ∈ mp, p.1 = k) :
    lookupKV (mp.map (fun p => if p.1 = k then (k, v) else p)) k = some v := by
  induction mp with
  | nil => simp at hex
  | cons q rest ih =>
      by_cases hqk : q.1 = k
      · simp only [List.map_cons, hqk, if_true]
        exact lookupKV_cons_of_eq rfl
      · simp only [List.map_cons, hqk, if_false]
        rw [lookupKV_cons_of_ne hqk]
        rcases hex with ⟨p, hp, hpk⟩
        rcases List.mem_cons.mp hp with hpq | hprest
        · exact absurd (hpq ▸ hpk) hqk
        · exact ih ⟨p, hprest, hpk⟩

/-- Replacing the value at key `k` does not affect lookup of other keys. -/
theorem find_map_replace_other {mp : List ((ℕ × ℕ) × ℕ)} {k : ℕ × ℕ} {v : ℕ}
    {k' : ℕ × ℕ} (hne : k' ≠ k) :
    lookupKV (mp.map (fun p => if p.1 = k then (k, v) else p)) k'
      = lookupKV mp k' := by
  induction mp with
  | nil => rfl
  | cons q rest ih =>
      by_cases hq' : q.1 = k'
      · have hqk : ¬ q.1 = k := fun h => hne (by rw [← hq', h])
        simp only [List.map_cons, hqk, if_false]
        rw [lookupKV_cons_of_eq hq', lookupKV_cons_of_eq hq']
      · by_cases hqk : q.1 = k
        · simp only [List.map_cons, hqk, if_true]
          rw [lookupKV_cons_of_ne (show ¬ ((k, v) : (ℕ × ℕ) × ℕ).1 = k' from
              fun h => hne h.symm),
            lookupKV_cons_of_ne hq']
          exact ih
        · simp only [List.map_cons, hqk, if_false]
          rw [lookupKV_cons_of_ne hq', lookupKV_cons_of_ne hq']
          exact ih

/-- Looking up the inserted key returns the inserted value. -/
theorem lookupKV_insertKV_self (mp : List ((ℕ × ℕ) × ℕ)) (k : ℕ × ℕ) (v : ℕ) :
    lookupKV (insertKV mp k v) k = some v := by
  unfold insertKV
  by_cases hany : mp.any (fun p => p.1 = k)
  · rcases List.any_eq_true.mp hany with ⟨p0, hp0, hp0k⟩
    simp only [decide_eq_true_eq] at hp0k
    simp only [hany, if_true]
    exact find_map_replace_self ⟨p0, hp0, hp0k⟩
  · simp only [hany, if_false]
    exact lookupKV_cons_of_eq rfl

/-- Looking up a different key is unaffected by an insertion. -/
theorem lookupKV_insertKV_other (mp : List ((ℕ × ℕ) × ℕ)) (k : ℕ × ℕ) (v : ℕ)
    (k' : ℕ × ℕ) (hne : k' ≠ k) :
    lookupKV (insertKV mp k v) k' = lookupKV mp k' := by
  unfold insertKV
  by_cases hany : mp.any (fun p => p.1 = k)
  · simp only [hany, if_true]
    exact find_map_replace_other hne
  · simp only [hany, if_false]
    exact lookupKV_cons_of_ne (fun h => hne h.symm)

/-- Folding insertions over a list of key/value pairs, from a given initial
map; `buildEdgeMap kvs = foldIns [] kvs`. -/
def foldIns (mp : List ((ℕ × ℕ) × ℕ)) (kvs : List ((ℕ × ℕ) × ℕ)) :
    List ((ℕ × ℕ) × ℕ) :=
  kvs.foldl (fun mp kv => insertKV mp kv.1 kv.2) mp

/-- Keys never inserted look up to their value in the initial map. -/
theorem lookupKV_foldIns_fresh {kvs : List ((ℕ × ℕ) × ℕ)} {k : ℕ × ℕ}
    (hfresh : k ∉ kvs.map Prod.fst) (mp : List ((ℕ × ℕ) × ℕ)) :
    lookupKV (foldIns mp kvs) k = lookupKV mp k := by
  induction kvs generalizing mp with
  | nil => rfl
  | cons kv rest ih =>
      simp only [List.map_cons, List.mem_cons] at hfresh
      push_neg at hfresh
      have step : lookupKV (insertKV mp kv.1 kv.2) k = lookupKV mp k :=
        lookupKV_insertKV_other mp kv.1 kv.2 k hfresh.1
      simpa [foldIns, step] using ih hfresh.2 (insertKV mp kv.1 kv.2)

/-- With no duplicate keys, every inserted pair is found by lookup. -/
theorem lookupKV_foldIns_of_mem {kvs : List ((ℕ × ℕ) × ℕ)} {k : ℕ × ℕ} {v : ℕ}
    (hnd : (kvs.map Prod.fst).Nodup) (hmem : (k, v) ∈ kvs)
    (mp : List ((ℕ × ℕ) × ℕ)) :
    lookupKV (foldIns mp kvs) k = some v := by
  induction kvs generalizing mp with
  | nil => cases hmem
  | cons kv rest ih =>
      simp only [List.map_cons, List.nodup_cons] at hnd
      rcases List.mem_cons.mp hmem with hq | hrest
      · have hfresh : k ∉ rest.map Prod.fst := by
          have : kv.1 = k := by rw [← hq]
          exact this ▸ hnd.1
        have := lookupKV_foldIns_fresh hfresh (insertKV mp kv.1 kv.2)
        rw [foldIns, List.foldl_cons, ← foldIns, this, ← hq,
          lookupKV_insertKV_self]
      · exact ih hnd.2 hrest (insertKV mp kv.1 kv.2)

/-- Members of the folded map come from the inserted pairs or the initial
map. -/
theorem mem_foldIns {kvs mp : List ((ℕ × ℕ) × ℕ)} {p : (ℕ × ℕ) × ℕ}
    (h : p ∈ foldIns mp kvs) : p ∈ kvs ∨ p ∈ mp := by
  induction kvs generalizing mp with
  | nil => exact Or.inr h
  | cons kv rest ih =>
      rcases ih (by simpa [foldIns] using h) with hrest | hmp
      · exact Or.inl (List.mem_cons_of_mem _ hrest)
      · rcases mem_insertKV hmp with hkv | hmp'
        · exact Or.inl (hkv ▸ List.mem_cons_self _ _)
        · exact Or.inr hmp'

/-- A successful lookup in the built edge map comes from an inserted pair. -/
theorem lookupKV_buildEdgeMap_some {kvs : List ((ℕ × ℕ) × ℕ)} {k : ℕ × ℕ}
    {v : ℕ} (h : lookupKV (buildEdgeMap kvs) k = some v) : (k, v) ∈ kvs := by
  have hm : (k, v) ∈ foldIns [] kvs := lookupKV_mem h
  rcases mem_foldIns hm with h' | h'
  · exact h'
  · cases h'

/-- Membership in the edge-map key/value list. -/
theorem mem_edgeMapKVs {hes : List HalfEdge} {k : ℕ × ℕ} {v : ℕ} :
    (k, v) ∈ edgeMapKVs hes ↔ v < hes.length ∧ pairOf hes v = k := by
  unfold edgeMapKVs
  simp only [List.mem_map, List.mem_range, Prod.mk.injEq]
  constructor
  · rintro ⟨i, hi, hk, hv⟩
    exact ⟨hv ▸ hi, hv ▸ hk⟩
  · rintro ⟨hv, hk⟩
    exact ⟨v, hv, hk, rfl⟩

/-- The twin list has one entry per half-edge. -/
theorem collectTwins_length (hes : List HalfEdge) :
    (collectTwins hes).length = hes.length := by
  simp [collectTwins]

/-- The half-edge count of `from_mesh` is the pre-twin half-edge count. -/
theorem fromMesh_half_edges_length (m : Mesh) :
    (HalfEdgeMesh.fromMesh m).half_edges.length
      = (buildHalfEdges 0 (chunks3 m.face_indices)).length := by
  simp [HalfEdgeMesh.fromMesh, collectTwins_length]

/-- Entry `i` of a `zipWith` in terms of the entries of the two lists. -/
theorem zipWith_getD {α β γ : Type} [Inhabited α] [Inhabited β] [Inhabited γ]
    (f : α → β → γ) :
    ∀ (as : List α) (bs : List β) (i : ℕ), i < as.length → i < bs.length →
      (List.zipWith f as bs).getD i default = f (as.getD i default) (bs.getD i default)
  | [], _, i, ha, _ => absurd ha (by simp)
  | _ :: _, [], i, _, hb => absurd hb (by simp)
  | a :: as, b :: bs, 0, _, _ => rfl
  | a :: as, b :: bs, i + 1, ha, hb => by
      simpa using zipWith_getD f as bs i (by simpa using ha) (by simpa using hb)

/-- The half-edge records of `from_mesh`: all fields of the pre-twin record,
with the twin looked up from the reversed directed pair. -/
theorem fromMesh_halfEdge (m : Mesh) (i : ℕ)
    (hi : i < (buildHalfEdges 0 (chunks3 m.face_indices)).length) :
    (HalfEdgeMesh.fromMesh m).halfEdge i =
      { (buildHalfEdges 0 (chunks3 m.face_indices)).getD i default with
        twin_index :=
          lookupKV (buildEdgeMap (edgeMapKVs (buildHalfEdges 0 (chunks3 m.face_indices))))
            (pairOf (buildHalfEdges 0 (chunks3 m.face_indices)) i).swap } := by
  unfold HalfEdgeMesh.fromMesh HalfEdgeMesh.halfEdge
  simp only []
  rw [zipWith_getD _ _ _ i hi (by rw [collectTwins_length]; exact hi)]
  congr 1
  unfold collectTwins
  rw [List.getD_eq_getElem?_getD]
  rw [List.getElem?_map, List.getElem?_range hi]
  rfl

/-- Length of the pre-twin half-edge list: three per triangle. -/
theorem buildHalfEdges_length :
    ∀ (tris : List (ℕ × ℕ × ℕ)) (k : ℕ),
      (buildHalfEdges k tris).length = 3 * tris.length
  | [], _ => rfl
  | t :: rest, k => by
      simp [buildHalfEdges, triangleHalfEdges, buildHalfEdges_length rest (k + 1)]
      ring

/-- Entry `3j + r` of the pre-twin half-edge list is entry `r` of triangle
`j`'s half-edge triple. -/
theorem buildHalfEdges_getElem? :
    ∀ (tris : List (ℕ × ℕ × ℕ)) (k0 j r : ℕ), r < 3 →
      (buildHalfEdges k0 tris)[3 * j + r]? =
        (tris[j]?).map (fun t => (triangleHalfEdges (k0 + j) t).getD r default)
  | [], k0, j, r, hr => by simp [buildHalfEdges]
  | t :: rest, k0, 0, r, hr => by
      have hlen : (triangleHalfEdges k0 t).length = 3 := rfl
      rw [buildHalfEdges, List.getElem?_append, if_pos (by rw [hlen]; omega)]
      simp only [List.getElem?_cons_zero, Option.map_some']
      interval_cases r <;> rfl
  | t :: rest, k0, j + 1, r, hr => by
      have hlen : (triangleHalfEdges k0 t).length = 3 := rfl
      have hidx : 3 * (j + 1) + r = (3 * j + r) + 3 := by ring
      rw [buildHalfEdges, hidx, List.getElem?_append_right (by rw [hlen]; omega)]
      have h3 : 3 * j + r + 3 - (triangleHalfEdges k0 t).length = 3 * j + r := by
        rw [hlen]; omega
      rw [h3, buildHalfEdges_getElem? rest (k0 + 1) j r hr]
      have : k0 + 1 + j = k0 + (j + 1) := by ring
      simp [this]

/-- Length of the directed-edge list: three per triangle. -/
theorem directedEdges_length' :
    ∀ (tris : List (ℕ × ℕ × ℕ)),
      ((tris.map triangleDirectedPairs).flatten).length = 3 * tris.length
  | [] => rfl
  | t :: rest => by
      simp [triangleDirectedPairs, directedEdges_length' rest]
      ring

/-- Entry `3j + r` of the directed-edge list is entry `r` of triangle `j`'s
pair triple. -/
theorem directedEdges_getElem? :
    ∀ (tris : List (ℕ × ℕ × ℕ)) (j r : ℕ), r < 3 →
      ((tris.map triangleDirectedPairs).flatten)[3 * j + r]? =
        (tris[j]?).map (fun t => (triangleDirectedPairs t).getD r default)
  | [], j, r, hr => by simp
  | t :: rest, 0, r, hr => by
      have hlen : (triangleDirectedPairs t).length = 3 := rfl
      rw [List.map_cons, List.flatten_cons, List.getElem?_append,
        if_pos (by rw [hlen]; omega)]
      simp only [List.getElem?_cons_zero, Option.map_some']
      interval_cases r <;> rfl
  | t :: rest, j + 1, r, hr => by
      have hlen : (triangleDirectedPairs t).length = 3 := rfl
      have hidx : 3 * (j + 1) + r = (3 * j + r) + 3 := by ring
      rw [List.map_cons, List.flatten_cons, hidx,
        List.getElem?_append_right (by rw [hlen]; omega)]
      have h3 : 3 * j + r + 3 - (triangleDirectedPairs t).length = 3 * j + r := by
        rw [hlen]; omega
      rw [h3, directedEdges_getElem? rest j r hr]
      simp

/-- The `getD` form of `buildHalfEdges_getElem?` at triangle `j`. -/
theorem buildHalfEdges_getD (tris : List (ℕ × ℕ × ℕ)) (j r : ℕ)
    (t : ℕ × ℕ × ℕ) (ht : tris[j]? = some t) (hr : r < 3) :
    (buildHalfEdges 0 tris).getD (3 * j + r) default
      = (triangleHalfEdges j t).getD r default := by
  rw [List.getD_eq_getElem?_getD, buildHalfEdges_getElem? tris 0 j r hr, ht]
  simp

/-- The directed pair of pre-twin half-edge `3j + r` is entry `r` of triangle
`j`'s pair triple. -/
theorem pairOf_buildHalfEdges (tris : List (ℕ × ℕ × ℕ)) (j r : ℕ)
    (t : ℕ × ℕ × ℕ) (ht : tris[j]? = some t) (hr : r < 3) :
    pairOf (buildHalfEdges 0 tris) (3 * j + r) =
      (triangleDirectedPairs t).getD r default := by
  have e0 := buildHalfEdges_getD tris j 0 t ht (by omega)
  have e1 := buildHalfEdges_getD tris j 1 t ht (by omega)
  have e2 := buildHalfEdges_getD tris j 2 t ht (by omega)
  have f0 : (triangleHalfEdges j t).getD 0 default
      = ⟨t.2.1, none, 3 * j + 1, 3 * j + 2, some j⟩ := rfl
  have f1 : (triangleHalfEdges j t).getD 1 default
      = ⟨t.2.2, none, 3 * j + 2, 3 * j, some j⟩ := rfl
  have f2 : (triangleHalfEdges j t).getD 2 default
      = ⟨t.1, none, 3 * j, 3 * j + 1, some j⟩ := rfl
  rw [f0] at e0
  rw [f1] at e1
  rw [f2] at e2
  simp only [List.getD_eq_getElem?_getD, Nat.add_zero] at e0 e1 e2
  interval_cases r
  · simp [pairOf, e0, e2, triangleDirectedPairs]
  · simp [pairOf, e0, e1, triangleDirectedPairs]
  · simp [pairOf, e1, e2, triangleDirectedPairs]

/-- The key list of the edge map of `from_mesh` is exactly the mesh's
directed-edge list, in order. -/
theorem fromMesh_pairs_eq (m : Mesh) :
    (List.range (buildHalfEdges 0 (chunks3 m.face_indices)).length).map
        (pairOf (buildHalfEdges 0 (chunks3 m.face_indices)))
      = Mesh.directedEdges m := by
  set tris := chunks3 m.face_indices with htris
  apply List.ext_getElem?
  intro i
  rw [Mesh.directedEdges, ← htris]
  by_cases hi : i < 3 * tris.length
  · obtain ⟨j, r, hr, rfl⟩ : ∃ j r, r < 3 ∧ i = 3 * j + r :=
      ⟨i / 3, i % 3, Nat.mod_lt _ (by omega), by omega⟩
    have hj : j < tris.length := by omega
    obtain ⟨t, ht⟩ : ∃ t, tris[j]? = some t := ⟨_, List.getElem?_eq_getElem hj⟩
    rw [List.getElem?_map, List.getElem?_range
      (by rw [buildHalfEdges_length]; exact hi)]
    rw [directedEdges_getElem? tris j r hr, ht]
    rw [Option.map_some', Option.map_some',
      pairOf_buildHalfEdges tris j r t ht hr]
  · push_neg at hi
    rw [List.getElem?_map]
    rw [List.getElem?_eq_none
      (by rw [List.length_range, buildHalfEdges_length]; exact hi)]
    rw [List.getElem?_eq_none (by rw [directedEdges_length']; exact hi)]
    rfl

/-- The half-edge table of the cube fixture does not depend on the size. -/
theorem createCube_half_edges (size : ℚ) :
    (HalfEdgeMesh.createCube size).half_edges =
      [⟨1, some 7,  1,  3,  some 0⟩,
       ⟨2, some 11, 2,  0,  some 0⟩,
       ⟨3, some 15, 3,  1,  some 0⟩,
       ⟨0, some 19, 0,  2,  some 0⟩,
       ⟨5, some 17, 5,  7,  some 1⟩,
       ⟨6, some 21, 6,  4,  some 1⟩,
       ⟨2, some 9,  7,  5,  some 1⟩,
       ⟨1, some 0,  4,  6,  some 1⟩,
       ⟨4, some 18, 9,  11, some 2⟩,
       ⟨7, some 22, 10, 8,  some 2⟩,
       ⟨6, some 6,  11, 9,  some 2⟩,
       ⟨5, some 1,  8,  10, some 2⟩,
       ⟨0, some 16, 13, 15, some 3⟩,
       ⟨3, some 23, 14, 12, some 3⟩,
       ⟨7, some 10, 15, 13, some 3⟩,
       ⟨4, some 2,  12, 14, some 3⟩,
       ⟨4, some 12, 17, 19, some 4⟩,
       ⟨5, some 4,  18, 16, some 4⟩,
       ⟨1, some 8,  19, 17, some 4⟩,
       ⟨0, some 3,  16, 18, some 4⟩,
       ⟨2, some 14, 21, 23, some 5⟩,
       ⟨6, some 5,  22, 20, some 5⟩,
       ⟨7, some 9,  23, 21, some 5⟩,
       ⟨3, some 13, 20, 22, some 5⟩] := rfl

/-- C4, amended: twin symmetry holds for every half-edge mesh built by
`from_mesh` from a flat triangle mesh in which no directed vertex pair occurs
in more than one triangle (`Nodup` of the directed-edge list — manifold
input): every half-edge `i` with `twin = some j` satisfies
`half_edges[j].twin = some i`.  The claim's second part — that the
`create_cube` fixture also satisfies twin symmetry — is false: in the
hand-wired table `half_edges[6].twin = some 9` while
`half_edges[9].twin = some 22`, which the second conjunct records. -/
theorem twin_symmetry :
    (∀ (m : Mesh), (Mesh.directedEdges m).Nodup →
      ∀ i j, i < (HalfEdgeMesh.fromMesh m).half_edges.length →
        ((HalfEdgeMesh.fromMesh m).halfEdge i).twin_index = some j →
        j < (HalfEdgeMesh.fromMesh m).half_edges.length ∧
          ((HalfEdgeMesh.fromMesh m).halfEdge j).twin_index = some i) ∧
    (((HalfEdgeMesh.createCube 2).halfEdge 6).twin_index = some 9 ∧
      ((HalfEdgeMesh.createCube 2).halfEdge 9).twin_index = some 22) := by
  constructor
  · intro m hnodup i j hi htwin
    set hes := buildHalfEdges 0 (chunks3 m.face_indices) with hhes
    have hlen := fromMesh_half_edges_length m
    have hi' : i < hes.length := by rw [← hlen]; exact hi
    have hkeys : ((edgeMapKVs hes).map Prod.fst).Nodup := by
      have hkeq : (edgeMapKVs hes).map Prod.fst
          = (List.range hes.length).map (pairOf hes) := by
        simp [edgeMapKVs, List.map_map, Function.comp]
      rw [hkeq, hhes, fromMesh_pairs_eq m]
      exact hnodup
    rw [fromMesh_halfEdge m i hi'] at htwin
    simp only [] at htwin
    have hj := lookupKV_buildEdgeMap_some htwin
    rcases mem_edgeMapKVs.mp hj with ⟨hjlen, hpairj⟩
    refine ⟨by rw [hlen]; exact hjlen, ?_⟩
    rw [fromMesh_halfEdge m j hjlen]
    simp only []
    have hswap : (pairOf hes j).swap = pairOf hes i := by
      rw [hpairj, Prod.swap_swap]
    rw [hswap]
    exact lookupKV_foldIns_of_mem hkeys (mem_edgeMapKVs.mpr ⟨hi', rfl⟩) []
  · rw [HalfEdgeMesh.halfEdge, HalfEdgeMesh.halfEdge, createCube_half_edges]
    exact ⟨by decide, by decide⟩

/-- Witness for `twin_symmetry`: the cube flat mesh is manifold (its directed
edges are distinct), half-edge 0 of its `from_mesh` result has twin 5, and the
theorem yields the symmetric twin entry. -/
theorem twin_symmetry_witness :
    (Mesh.directedEdges (Mesh.createCube 1)).Nodup ∧
    (5 < (HalfEdgeMesh.fromMesh (Mesh.createCube 1)).half_edges.length ∧
      ((HalfEdgeMesh.fromMesh (Mesh.createCube 1)).halfEdge 5).twin_index = some 0) :=
  ⟨by decide,
    twin_symmetry.1 (Mesh.createCube 1) (by decide) 0 5 (by decide) (by decide)⟩

/-- C4, counterexample: the `create_cube` fixture refutes twin symmetry as
claimed — its half-edge 6 has `twin = some 9`, but half-edge 9 has
`twin = some 22`, not `some 6`. -/
theorem create_cube_twin_asymmetry :
    ((HalfEdgeMesh.createCube 2).halfEdge 6).twin_index = some 9 ∧
      ¬ ((HalfEdgeMesh.createCube 2).halfEdge 9).twin_index = some 6 := by
  rw [HalfEdgeMesh.halfEdge, HalfEdgeMesh.halfEdge, createCube_half_edges]
  exact ⟨by decide, by decide⟩

/-- Projection form of `fromMesh_halfEdge`: target and next of half-edge
`3k + r` are those of the pre-twin triangle record. -/
theorem fromMesh_he_proj (m : Mesh) (k r : ℕ) (t : ℕ × ℕ × ℕ)
    (ht : (chunks3 m.face_indices)[k]? = some t) (hr : r < 3) :
    ((HalfEdgeMesh.fromMesh m).halfEdge (3 * k + r)).target_vertex_index
      = ((triangleHalfEdges k t).getD r default).target_vertex_index ∧
    ((HalfEdgeMesh.fromMesh m).halfEdge (3 * k + r)).next_edge
      = ((triangleHalfEdges k t).getD r default).next_edge := by
  have hk : k < (chunks3 m.face_indices).length := by
    by_contra hge
    push_neg at hge
    rw [List.getElem?_eq_none hge] at ht
    cases ht
  have hi : 3 * k + r < (buildHalfEdges 0 (chunks3 m.face_indices)).length := by
    rw [buildHalfEdges_length]
    omega
  rw [fromMesh_halfEdge m _ hi,
    buildHalfEdges_getD (chunks3 m.face_indices) k r t ht hr]
  exact ⟨rfl, rfl⟩

/-- The fan emitted by `to_mesh` for face `k` of a `from_mesh` mesh: the
stored triangle `(v0, v1, v2)` comes out as `[v1, v0, v2]` — the first two
indices swapped, i.e. reversed winding. -/
theorem toMeshFace_fromMesh (m : Mesh) (k : ℕ) (t : ℕ × ℕ × ℕ)
    (ht : (chunks3 m.face_indices)[k]? = some t) :
    toMeshFace (HalfEdgeMesh.fromMesh m) ⟨3 * k⟩ = [t.2.1, t.1, t.2.2] := by
  have hk : k < (chunks3 m.face_indices).length := by
    by_contra hge
    push_neg at hge
    rw [List.getElem?_eq_none hge] at ht
    cases ht
  have h0 := fromMesh_he_proj m k 0 t ht (by omega)
  have h1 := fromMesh_he_proj m k 1 t ht (by omega)
  have h2 := fromMesh_he_proj m k 2 t ht (by omega)
  have hT0 : ((HalfEdgeMesh.fromMesh m).halfEdge (3 * k + 0)).target_vertex_index
      = t.2.1 := h0.1
  have hN0 : ((HalfEdgeMesh.fromMesh m).halfEdge (3 * k + 0)).next_edge
      = 3 * k + 1 := h0.2
  have hT1 : ((HalfEdgeMesh.fromMesh m).halfEdge (3 * k + 1)).target_vertex_index
      = t.2.2 := h1.1
  have hN1 : ((HalfEdgeMesh.fromMesh m).halfEdge (3 * k + 1)).next_edge
      = 3 * k + 2 := h1.2
  have hT2 : ((HalfEdgeMesh.fromMesh m).halfEdge (3 * k + 2)).target_vertex_index
      = t.1 := h2.1
  have hN2 : ((HalfEdgeMesh.fromMesh m).halfEdge (3 * k + 2)).next_edge
      = 3 * k := h2.2
  rw [Nat.add_zero] at hT0 hN0
  have hlen : (HalfEdgeMesh.fromMesh m).half_edges.length
      = 3 * (chunks3 m.face_indices).length := by
    rw [fromMesh_half_edges_length, buildHalfEdges_length]
  obtain ⟨f, hf⟩ : ∃ f, (HalfEdgeMesh.fromMesh m).half_edges.length = f + 1 :=
    ⟨(HalfEdgeMesh.fromMesh m).half_edges.length - 1, by omega⟩
  have hfpos : 0 < f := by omega
  obtain ⟨f', hf'⟩ : ∃ f', f = f' + 1 := ⟨f - 1, by omega⟩
  unfold toMeshFace
  show toMeshFaceLoop (HalfEdgeMesh.fromMesh m) (3 * k)
      ((HalfEdgeMesh.fromMesh m).halfEdge (3 * k)).target_vertex_index
      ((HalfEdgeMesh.fromMesh m).half_edges.length + 1)
      ((HalfEdgeMesh.fromMesh m).halfEdge (3 * k)).next_edge
      (((HalfEdgeMesh.fromMesh m).halfEdge
        ((HalfEdgeMesh.fromMesh m).halfEdge (3 * k)).next_edge).target_vertex_index)
      = [t.2.1, t.1, t.2.2]
  rw [hT0, hN0, hT1, hf]
  simp only [toMeshFaceLoop]
  rw [hN1, if_neg (by omega), hT2, hf']
  simp only [toMeshFaceLoop]
  rw [hN2, if_pos rfl]

/-- The face list of `from_mesh`. -/
theorem fromMesh_faces (m : Mesh) :
    (HalfEdgeMesh.fromMesh m).faces = buildFaces 0 (chunks3 m.face_indices) := rfl

/-- Helper for the face-index computation: emission over a suffix of the
face list. -/
theorem toMesh_fromMesh_faces_aux (m : Mesh) :
    ∀ (ts : List (ℕ × ℕ × ℕ)) (j : ℕ), (chunks3 m.face_indices).drop j = ts →
      ((buildFaces j ts).map (toMeshFace (HalfEdgeMesh.fromMesh m))).flatten
        = (ts.map (fun t => [t.2.1, t.1, t.2.2])).flatten
  | [], _, _ => rfl
  | t :: ts', j, hdrop => by
      have ht : (chunks3 m.face_indices)[j]? = some t := by
        have h := (List.getElem?_drop (chunks3 m.face_indices) j 0).symm
        rw [hdrop] at h
        simpa using h
      have hdrop' : (chunks3 m.face_indices).drop (j + 1) = ts' := by
        have h1 : ((chunks3 m.face_indices).drop j).drop 1
            = (chunks3 m.face_indices).drop (j + 1) := List.drop_drop 1 j _
        rw [hdrop] at h1
        exact h1.symm
      rw [buildFaces, List.map_cons, List.flatten_cons,
        toMeshFace_fromMesh m j t ht,
        toMesh_fromMesh_faces_aux m ts' (j + 1) hdrop',
        List.map_cons, List.flatten_cons]

/-- The face indices of `to_mesh ∘ from_mesh`: every stored triangle
`(v0, v1, v2)` is emitted as `v1, v0, v2`. -/
theorem toMesh_fromMesh_face_indices (m : Mesh) :
    (HalfEdgeMesh.toMesh (HalfEdgeMesh.fromMesh m)).face_indices
      = ((chunks3 m.face_indices).map (fun t => [t.2.1, t.1, t.2.2])).flatten := by
  show ((HalfEdgeMesh.fromMesh m).faces.map _).flatten = _
  rw [fromMesh_faces]
  exact toMesh_fromMesh_faces_aux m (chunks3 m.face_indices) 0
    (List.drop_zero _)

/-- Single-triangle mesh used to refute the cyclic-rotation claim. -/
def triMeshExample : Mesh :=
  { vertex_coords := [0, 0, 0, 1, 0, 0, 0, 1, 0],
    face_indices := [0, 1, 2],
    normals := none }

/-- C6, counterexample: for the single stored triangle `(0, 1, 2)`,
`to_mesh ∘ from_mesh` emits the triple `(1, 0, 2)`, which is not any cyclic
rotation of `(0, 1, 2)` — refuting the claim that the emitted triple equals
the stored triangle up to cyclic rotation. -/
theorem to_mesh_cyclic_rotation_counterexample :
    (HalfEdgeMesh.toMesh (HalfEdgeMesh.fromMesh triMeshExample)).face_indices
        = [1, 0, 2] ∧
      ¬ (([1, 0, 2] : List ℕ) = [0, 1, 2] ∨ ([1, 0, 2] : List ℕ) = [1, 2, 0] ∨
          ([1, 0, 2] : List ℕ) = [2, 0, 1]) := by
  constructor
  · rw [toMesh_fromMesh_face_indices]
    decide
  · decide

/-- C6, amended: for every flat mesh, `to_mesh` of its `from_mesh` result
walks each face's half-edge loop once and emits, for the face storing
triangle `(v0, v1, v2)`, exactly the triple `(v1, v0, v2)` — the stored
triangle with its first two indices swapped (a fan of reversed winding), not
a cyclic rotation of the stored triangle. -/
theorem to_mesh_emits_reversed_fan (m : Mesh) :
    (HalfEdgeMesh.toMesh (HalfEdgeMesh.fromMesh m)).face_indices
      = ((chunks3 m.face_indices).map (fun t => [t.2.1, t.1, t.2.2])).flatten :=
  toMesh_fromMesh_face_indices m

/-- A replaced list element whose value is unchanged leaves the list
unchanged. -/
theorem set_getElem?_self {α : Type} :
    ∀ (l : List α) (n : ℕ) (a : α), l[n]? = some a → l.set n a = l
  | [], _, _, h => by cases h
  | x :: xs, 0, a, h => by
      simp only [List.getElem?_cons_zero, Option.some.injEq] at h
      rw [List.set_cons_zero, h]
  | x :: xs, n + 1, a, h => by
      simp only [List.getElem?_cons_succ] at h
      rw [List.set_cons_succ, set_getElem?_self xs n a h]

/-- The seed pass does not change vertex positions. -/
theorem setSeedIfNone_positions (vs : List HEVertex) (vi he : ℕ) :
    (setSeedIfNone vs vi he).map (fun v => v.position)
      = vs.map (fun v => v.position) := by
  unfold setSeedIfNone
  cases hv : vs[vi]? with
  | none => rfl
  | some v =>
      by_cases hseed : v.seed_half_edge = none
      · simp only [hseed, if_true]
        rw [List.map_set]
        exact set_getElem?_self _ _ _ (by rw [List.getElem?_map, hv]; rfl)
      · simp [hseed]

/-- The whole seed pass preserves the position list. -/
theorem buildSeeds_positions :
    ∀ (ts : List (ℕ × ℕ × ℕ)) (k : ℕ) (vs : List HEVertex),
      (buildSeeds k vs ts).map (fun v => v.position)
        = vs.map (fun v => v.position)
  | [], _, _ => rfl
  | t :: ts', k, vs => by
      rw [buildSeeds, buildSeeds_positions ts' (k + 1) _,
        setSeedIfNone_positions, setSeedIfNone_positions,
        setSeedIfNone_positions]

/-- Flattening the coordinate triples reproduces a coordinate list whose
length is a multiple of three. -/
theorem chunks3_reconstruct :
    ∀ (l : List ℚ), l.length % 3 = 0 →
      ((chunks3 l).map (fun c => [c.1, c.2.1, c.2.2])).flatten = l
  | [], _ => rfl
  | a :: b :: c :: rest, h => by
      have hr : rest.length % 3 = 0 := by
        simp only [List.length_cons] at h
        omega
      simp [chunks3, chunks3_reconstruct rest hr]
  | [a], h => by simp at h
  | [a, b], h => by simp at h

/-- Round trip of the coordinates: `to_mesh ∘ from_mesh` reproduces the
vertex coordinates of any mesh whose coordinate count is a multiple of 3. -/
theorem toMesh_fromMesh_vertex_coords (m : Mesh)
    (h : m.vertex_coords.length % 3 = 0) :
    (HalfEdgeMesh.toMesh (HalfEdgeMesh.fromMesh m)).vertex_coords
      = m.vertex_coords := by
  show ((HalfEdgeMesh.fromMesh m).vertices.map _).flatten = _
  have hverts : (HalfEdgeMesh.fromMesh m).vertices.map (fun v => v.position)
      = (chunks3 m.vertex_coords).map (fun c => Point3.new c.1 c.2.1 c.2.2) := by
    show (buildSeeds 0 _ _).map _ = _
    rw [buildSeeds_positions, List.map_map]
    rfl
  have hflat : (HalfEdgeMesh.fromMesh m).vertices.map
        (fun v => [v.position.vec3.x, v.position.vec3.y, v.position.vec3.z])
      = (chunks3 m.vertex_coords).map (fun c => [c.1, c.2.1, c.2.2]) := by
    have h1 : (HalfEdgeMesh.fromMesh m).vertices.map
          (fun v => [v.position.vec3.x, v.position.vec3.y, v.position.vec3.z])
        = ((HalfEdgeMesh.fromMesh m).vertices.map (fun v => v.position)).map
            (fun p => [p.vec3.x, p.vec3.y, p.vec3.z]) := by
      rw [List.map_map]
      rfl
    rw [h1, hverts, List.map_map]
    rfl
  rw [hflat, chunks3_reconstruct _ h]

/-- Chunking a flat list built from triples recovers the triples. -/
theorem chunks3_flatten_map3 {β : Type} (f g h : β → ℕ) :
    ∀ l : List β,
      chunks3 ((l.map (fun t => [f t, g t, h t])).flatten)
        = l.map (fun t => (f t, g t, h t))
  | [] => rfl
  | t :: rest => by
      simp only [List.map_cons, List.flatten_cons, List.cons_append,
        List.nil_append]
      rw [chunks3, chunks3_flatten_map3 f g h rest]

/-- The position of vertex `i` of a flat mesh: coordinates `3i, 3i+1, 3i+2`. -/
def Mesh.posAt (m : Mesh) (i : ℕ) : Vec3 :=
  ⟨m.vertex_coords.getD (3 * i) 0, m.vertex_coords.getD (3 * i + 1) 0,
    m.vertex_coords.getD (3 * i + 2) 0⟩

/-- The multiset of the three vertex positions of an index triple. -/
def triPositions (m : Mesh) (t : ℕ × ℕ × ℕ) : Multiset Vec3 :=
  {m.posAt t.1, m.posAt t.2.1, m.posAt t.2.2}

/-- C5: building the cube flat mesh (8 vertices, 12 triangles) into a
half-edge mesh and back yields a flat mesh with the same vertex count (8) and
triangle count (12), and every output triangle's three vertex positions equal
some input triangle's three vertex positions as an unordered triple (the code
swaps the first two indices of each triangle, so the positions match up to
that reordering). -/
theorem cube_round_trip (size : ℚ) :
    (HalfEdgeMesh.toMesh (HalfEdgeMesh.fromMesh (Mesh.createCube size))).vertexCount = 8 ∧
    (HalfEdgeMesh.toMesh (HalfEdgeMesh.fromMesh (Mesh.createCube size))).faceCount = 12 ∧
    (Mesh.createCube size).vertexCount = 8 ∧
    (Mesh.createCube size).faceCount = 12 ∧
    ∀ tOut ∈ chunks3
        (HalfEdgeMesh.toMesh (HalfEdgeMesh.fromMesh (Mesh.createCube size))).face_indices,
      ∃ tIn ∈ chunks3 (Mesh.createCube size).face_indices,
        triPositions (HalfEdgeMesh.toMesh (HalfEdgeMesh.fromMesh (Mesh.createCube size))) tOut
          = triPositions (Mesh.createCube size) tIn := by
  have hlen24 : (Mesh.createCube size).vertex_coords.length = 24 := by
    simp [Mesh.createCube]
  have hfi : (Mesh.createCube size).face_indices
      = [0, 2, 1,  0, 3, 2,  5, 7, 4,  5, 6, 7,  3, 6, 2,  3, 7, 6,
         4, 1, 5,  4, 0, 1,  1, 6, 5,  1, 2, 6,  4, 3, 0,  4, 7, 3] := rfl
  have hcoords :
      (HalfEdgeMesh.toMesh (HalfEdgeMesh.fromMesh (Mesh.createCube size))).vertex_coords
        = (Mesh.createCube size).vertex_coords :=
    toMesh_fromMesh_vertex_coords _ (by rw [hlen24])
  have hfaces := toMesh_fromMesh_face_indices (Mesh.createCube size)
  refine ⟨?_, ?_, ?_, ?_, ?_⟩
  · rw [Mesh.vertexCount, hcoords, hlen24]
  · rw [Mesh.faceCount, hfaces, hfi]
    decide
  · rw [Mesh.vertexCount, hlen24]
  · rw [Mesh.faceCount, hfi]
    decide
  · intro tOut hOut
    rw [hfaces, chunks3_flatten_map3] at hOut
    rcases List.mem_map.mp hOut with ⟨tIn, hIn, hswap⟩
    refine ⟨tIn, hIn, ?_⟩
    have hpos : ∀ i, (HalfEdgeMesh.toMesh
          (HalfEdgeMesh.fromMesh (Mesh.createCube size))).posAt i
        = (Mesh.createCube size).posAt i := by
      intro i
      rw [Mesh.posAt, Mesh.posAt, hcoords]
    rw [← hswap]
    show triPositions _ (tIn.2.1, tIn.1, tIn.2.2) = _
    rw [triPositions, triPositions, hpos, hpos, hpos]
    exact Multiset.cons_swap _ _ _

/-- Witness for `cube_round_trip`: at size 2, the first output triangle
`(2, 0, 1)` has the same position multiset as the first input triangle
`(0, 2, 1)`. -/
theorem cube_round_trip_witness :
    (2, 0, 1) ∈ chunks3
        (HalfEdgeMesh.toMesh (HalfEdgeMesh.fromMesh (Mesh.createCube 2))).face_indices ∧
    ∃ tIn ∈ chunks3 (Mesh.createCube 2).face_indices,
      triPositions (HalfEdgeMesh.toMesh (HalfEdgeMesh.fromMesh (Mesh.createCube 2))) (2, 0, 1)
        = triPositions (Mesh.createCube 2) tIn := by
  have hmem : ((2 : ℕ), (0 : ℕ), (1 : ℕ)) ∈ chunks3
      (HalfEdgeMesh.toMesh (HalfEdgeMesh.fromMesh (Mesh.createCube 2))).face_indices := by
    rw [toMesh_fromMesh_face_indices, chunks3_flatten_map3]
    decide
  exact ⟨hmem, (cube_round_trip 2).2.2.2.2 (2, 0, 1) hmem⟩

/-- The twin-symmetry and face-loop invariants of a half-edge mesh, as the
data model states them: `next` and twin indices stay in range, `prev` undoes
`next`, the twin relation is symmetric, a twin represents the same undirected
edge in the opposite direction (its target is the source of the original),
and every vertex seed originates at its vertex. -/
structure HalfEdgeInvariants (m : HalfEdgeMesh) : Prop where
  next_lt : ∀ i, i < m.half_edges.length →
    (m.halfEdge i).next_edge < m.half_edges.length
  twin_lt : ∀ i j, i < m.half_edges.length →
    (m.halfEdge i).twin_index = some j → j < m.half_edges.length
  prev_next : ∀ i, i < m.half_edges.length →
    (m.halfEdge ((m.halfEdge i).next_edge)).prev_edge = i
  twin_sym : ∀ i j, i < m.half_edges.length →
    (m.halfEdge i).twin_index = some j → (m.halfEdge j).twin_index = some i
  twin_target : ∀ i j, i < m.half_edges.length →
    (m.halfEdge i).twin_index = some j →
    (m.halfEdge j).target_vertex_index = m.sourceVertex i
  seed_ok : ∀ v s, v < m.vertices.length →
    (m.vertexAt v).seed_half_edge = some s →
    s < m.half_edges.length ∧ m.sourceVertex s = v

/-- Injectivity of a partial step function on indices below `n`. -/
def InjStep (g : ℕ → Option ℕ) (n : ℕ) : Prop :=
  ∀ a b x, a < n → b < n → g a = some x → g b = some x → a = b

/-- A walk along `g` from `s`: `L` lists the visited indices in order and `c`
is the current (last) one. -/
inductive GPath (g : ℕ → Option ℕ) (s : ℕ) : ℕ → List ℕ → Prop where
  | single : GPath g s s [s]
  | snoc {c y : ℕ} {L : List ℕ} :
      GPath g s c L → g c = some y → GPath g s y (L ++ [y])

/-- The current index of a walk is on its list. -/
theorem GPath.last_mem {g : ℕ → Option ℕ} {s c : ℕ} {L : List ℕ}
    (h : GPath g s c L) : c ∈ L := by
  induction h with
  | single => simp
  | snoc hp hg => simp

/-- The start of a walk is on its list. -/
theorem GPath.start_mem {g : ℕ → Option ℕ} {s c : ℕ} {L : List ℕ}
    (h : GPath g s c L) : s ∈ L := by
  induction h with
  | single => simp
  | snoc hp hg ih => simp [ih]

/-- Every non-start index on a duplicate-free walk has a `g`-predecessor on
the walk that is not the current index. -/
theorem GPath.pred {g : ℕ → Option ℕ} {s c : ℕ} {L : List ℕ}
    (h : GPath g s c L) (hnd : L.Nodup) :
    ∀ y ∈ L, y ≠ s → ∃ w, w ∈ L ∧ w ≠ c ∧ g w = some y := by
  induction h with
  | single =>
      intro y hy hys
      simp only [List.mem_singleton] at hy
      exact absurd hy hys
  | @snoc c' y' L' hp hg ih =>
      intro y hy hys
      rcases List.nodup_append.mp hnd with ⟨hndL, _, hdisj⟩
      have hy'L : y' ∉ L' := fun hmem => hdisj hmem (List.mem_singleton_self _)
      rcases List.mem_append.mp hy with hyL | hyY
      · rcases ih hndL y hyL hys with ⟨w, hw, hwc, hgw⟩
        refine ⟨w, List.mem_append_left _ hw, ?_, hgw⟩
        intro hEq
        exact hy'L (hEq ▸ hw)
      · simp only [List.mem_singleton] at hyY
        subst hyY
        refine ⟨c', List.mem_append_left _ hp.last_mem, ?_, hg⟩
        intro hEq
        exact hy'L (hEq ▸ hp.last_mem)

/-- Freshness: the successor of the current index of a duplicate-free walk
along an injective step is either the start or off the walk. -/
theorem GPath.fresh {g : ℕ → Option ℕ} {s c : ℕ} {L : List ℕ} {n : ℕ}
    (h : GPath g s c L) (hnd : L.Nodup) (hb : ∀ x ∈ L, x < n)
    (hinj : InjStep g n) {y : ℕ} (hg : g c = some y) (hys : y ≠ s) :
    y ∉ L := by
  intro hyL
  rcases h.pred hnd y hyL hys with ⟨w, hw, hwc, hgw⟩
  exact hwc (hinj w c y (hb w hw) (hb c h.last_mem) hgw hg)

/-- A duplicate-free list of naturals below `n` has at most `n` elements. -/
theorem nodup_bounded_length_le {L : List ℕ} {n : ℕ} (hnd : L.Nodup)
    (hb : ∀ x ∈ L, x < n) : L.length ≤ n := by
  have h1 : L.toFinset ⊆ Finset.range n := fun x hx =>
    Finset.mem_range.mpr (hb x (List.mem_toFinset.mp hx))
  have h2 := Finset.card_le_card h1
  rwa [List.toFinset_card_of_nodup hnd, Finset.card_range] at h2

/-- The walk step of `vertex_outgoing_half_edges` is injective on valid
indices, by the face-loop and twin-symmetry invariants. -/
theorem outgoingStep_injective (m : HalfEdgeMesh)
    (inv : HalfEdgeInvariants m) :
    InjStep m.outgoingStep m.half_edges.length := by
  intro a b x ha hb hga hgb
  unfold HalfEdgeMesh.outgoingStep at hga hgb
  rcases Option.map_eq_some'.mp hga with ⟨ta, hta, hxa⟩
  rcases Option.map_eq_some'.mp hgb with ⟨tb, htb, hxb⟩
  have htan : ta < m.half_edges.length := inv.twin_lt a ta ha hta
  have htbn : tb < m.half_edges.length := inv.twin_lt b tb hb htb
  have hteq : ta = tb := by
    have h1 := inv.prev_next ta htan
    have h2 := inv.prev_next tb htbn
    rw [hxa] at h1
    rw [hxb] at h2
    rw [h1] at h2
    exact h2
  subst hteq
  have hsa := inv.twin_sym a ta ha hta
  have hsb := inv.twin_sym b ta hb htb
  exact Option.some.inj (hsa.symm.trans hsb)

/-- Main loop lemma for C8: with fuel exceeding `n − |L|` the loop completes,
and every emitted half-edge is in range and originates at `v`. -/
theorem vertexOutgoingAux_spec (m : HalfEdgeMesh)
    (inv : HalfEdgeInvariants m) (v s : ℕ) :
    ∀ (fuel : ℕ) (c : ℕ) (L : List ℕ),
      GPath m.outgoingStep s c L → L.Nodup →
      (∀ x ∈ L, x < m.half_edges.length) →
      m.half_edges.length + 1 ≤ fuel + L.length →
      m.sourceVertex c = v →
      ∃ out, vertexOutgoingAux m s fuel c = some out ∧
        ∀ i ∈ out, i < m.half_edges.length ∧ m.sourceVertex i = v := by
  intro fuel
  induction fuel with
  | zero =>
      intro c L hp hnd hb hfuel hsrc
      have := nodup_bounded_length_le hnd hb
      omega
  | succ fuel ih =>
      intro c L hp hnd hb hfuel hsrc
      have hcn : c < m.half_edges.length := hb c hp.last_mem
      cases htw : (m.halfEdge c).twin_index with
      | none =>
          refine ⟨[c], by simp [vertexOutgoingAux, htw], ?_⟩
          intro i hi
          simp only [List.mem_singleton] at hi
          subst hi
          exact ⟨hcn, hsrc⟩
      | some tw =>
          have htwn : tw < m.half_edges.length := inv.twin_lt c tw hcn htw
          have hnxtn : (m.halfEdge tw).next_edge < m.half_edges.length :=
            inv.next_lt tw htwn
          have hg : m.outgoingStep c = some (m.halfEdge tw).next_edge := by
            simp [HalfEdgeMesh.outgoingStep, htw]
          have hsrcnxt : m.sourceVertex (m.halfEdge tw).next_edge = v := by
            rw [HalfEdgeMesh.sourceVertex, inv.prev_next tw htwn,
              inv.twin_target c tw hcn htw, hsrc]
          by_cases hns : (m.halfEdge tw).next_edge = s
          · refine ⟨[c], by simp [vertexOutgoingAux, htw, hns], ?_⟩
            intro i hi
            simp only [List.mem_singleton] at hi
            subst hi
            exact ⟨hcn, hsrc⟩
          · have hfresh : (m.halfEdge tw).next_edge ∉ L :=
              hp.fresh hnd hb (outgoingStep_injective m inv) hg hns
            have hp' : GPath m.outgoingStep s (m.halfEdge tw).next_edge
                (L ++ [(m.halfEdge tw).next_edge]) := GPath.snoc hp hg
            have hnd' : (L ++ [(m.halfEdge tw).next_edge]).Nodup := by
              rw [List.nodup_append]
              refine ⟨hnd, List.nodup_singleton _, ?_⟩
              intro a haL hamem
              simp only [List.mem_singleton] at hamem
              subst hamem
              exact hfresh haL
            have hb' : ∀ x ∈ L ++ [(m.halfEdge tw).next_edge],
                x < m.half_edges.length := by
              intro x hx
              rcases List.mem_append.mp hx with hxL | hxN
              · exact hb x hxL
              · simp only [List.mem_singleton] at hxN
                subst hxN
                exact hnxtn
            have hfuel' : m.half_edges.length + 1
                ≤ fuel + (L ++ [(m.halfEdge tw).next_edge]).length := by
              rw [List.length_append, List.length_singleton]
              omega
            rcases ih (m.halfEdge tw).next_edge _ hp' hnd' hb' hfuel' hsrcnxt
              with ⟨out', hout', hprop⟩
            refine ⟨c :: out', ?_, ?_⟩
            · simp [vertexOutgoingAux, htw, hns, hout']
            · intro i hi
              rcases List.mem_cons.mp hi with hic | hiout
              · subst hic
                exact ⟨hcn, hsrc⟩
              · exact hprop i hiout

/-- C8: for every half-edge mesh satisfying the twin-symmetry and face-loop
invariants and every vertex `v`, `vertex_outgoing_half_edges(v)` terminates
(the fueled model returns a value within `half_edges.length + 1` steps, the
fuel the wrapper passes), and every returned half-edge originates at `v`
(the target of its `prev` half-edge is `v`). -/
theorem vertex_outgoing_terminates (m : HalfEdgeMesh)
    (inv : HalfEdgeInvariants m) (v : ℕ) :
    ∃ out, m.vertexOutgoingHalfEdges v = some out ∧
      ∀ i ∈ out, i < m.half_edges.length ∧ m.sourceVertex i = v := by
  unfold HalfEdgeMesh.vertexOutgoingHalfEdges
  cases hseed : (m.vertexAt v).seed_half_edge with
  | none => exact ⟨[], rfl, by simp⟩
  | some s =>
      have hv : v < m.vertices.length := by
        by_contra hge
        push_neg at hge
        rw [HalfEdgeMesh.vertexAt, List.getD_eq_default _ _ hge] at hseed
        cases hseed
      obtain ⟨hsn, hsrc⟩ := inv.seed_ok v s hv hseed
      exact vertexOutgoingAux_spec m inv v s (m.half_edges.length + 1) s [s]
        GPath.single (List.nodup_singleton _) (by simpa using hsn) (by simp)
        hsrc

/-- Executable check of the half-edge invariants, for concrete meshes. -/
def checkHalfEdgeInvariants (m : HalfEdgeMesh) : Bool :=
  ((List.range m.half_edges.length).all (fun i =>
    decide ((m.halfEdge i).next_edge < m.half_edges.length) &&
    ((m.halfEdge ((m.halfEdge i).next_edge)).prev_edge == i) &&
    ((m.halfEdge i).twin_index.all (fun j =>
      decide (j < m.half_edges.length) &&
      ((m.halfEdge j).twin_index == some i) &&
      ((m.halfEdge j).target_vertex_index == m.sourceVertex i))))) &&
  ((List.range m.vertices.length).all (fun v =>
    (m.vertexAt v).seed_half_edge.all (fun s =>
      decide (s < m.half_edges.length) && (m.sourceVertex s == v))))

/-- Soundness of the executable invariant check. -/
theorem checkHalfEdgeInvariants_sound {m : HalfEdgeMesh}
    (h : checkHalfEdgeInvariants m = true) : HalfEdgeInvariants m := by
  rw [checkHalfEdgeInvariants, Bool.and_eq_true, List.all_eq_true,
    List.all_eq_true] at h
  obtain ⟨h1, h2⟩ := h
  have he : ∀ i, i < m.half_edges.length →
      (m.halfEdge i).next_edge < m.half_edges.length ∧
      (m.halfEdge ((m.halfEdge i).next_edge)).prev_edge = i ∧
      ∀ j, (m.halfEdge i).twin_index = some j →
        j < m.half_edges.length ∧
        (m.halfEdge j).twin_index = some i ∧
        (m.halfEdge j).target_vertex_index = m.sourceVertex i := by
    intro i hi
    have hc := h1 i (List.mem_range.mpr hi)
    rw [Bool.and_eq_true, Bool.and_eq_true] at hc
    obtain ⟨⟨hca, hcb⟩, hcc⟩ := hc
    refine ⟨by simpa using hca, by simpa using hcb, ?_⟩
    intro j htw
    rw [htw] at hcc
    simp only [Option.all_some, Bool.and_eq_true, decide_eq_true_eq,
      beq_iff_eq] at hcc
    exact ⟨hcc.1.1, hcc.1.2, hcc.2⟩
  refine ⟨fun i hi => (he i hi).1,
    fun i j hi htw => ((he i hi).2.2 j htw).1,
    fun i hi => (he i hi).2.1,
    fun i j hi htw => ((he i hi).2.2 j htw).2.1,
    fun i j hi htw => ((he i hi).2.2 j htw).2.2,
    ?_⟩
  intro v s hv hseed
  have hc := h2 v (List.mem_range.mpr hv)
  rw [hseed] at hc
  simp only [Option.all_some, Bool.and_eq_true, decide_eq_true_eq,
    beq_iff_eq] at hc
  exact hc

/-- Two triangles sharing the edge `0–2`, a small manifold mesh whose
`from_mesh` image exercises a genuine walk around vertex 2. -/
def twoTriMesh : Mesh :=
  { vertex_coords := [0, 0, 0, 1, 0, 0, 1, 1, 0, 0, 1, 0],
    face_indices := [0, 1, 2, 0, 2, 3],
    normals := none }

/-- Witness for `vertex_outgoing_terminates`: the `from_mesh` image of the
two-triangle mesh satisfies the invariants and its vertex 2 yields a walk of
half-edges that all originate at vertex 2. -/
theorem vertex_outgoing_terminates_witness :
    checkHalfEdgeInvariants (HalfEdgeMesh.fromMesh twoTriMesh) = true ∧
    ∃ out, (HalfEdgeMesh.fromMesh twoTriMesh).vertexOutgoingHalfEdges 2 = some out ∧
      ∀ i ∈ out, i < (HalfEdgeMesh.fromMesh twoTriMesh).half_edges.length ∧
        (HalfEdgeMesh.fromMesh twoTriMesh).sourceVertex i = 2 :=
  ⟨by decide,
    vertex_outgoing_terminates _ (checkHalfEdgeInvariants_sound (by decide)) 2⟩

/-- A model wrapper: authoritative half-edge mesh, cached flat render mesh,
and dirty flag; source: `model_wrapper.rs`, `struct ModelWrapper`. -/
structure ModelWrapper where
  model : HalfEdgeMesh
  render_mesh : Mesh
  dirty : Bool
deriving DecidableEq, Inhabited

/-- `ModelWrapper::new` — builds the cache eagerly, clean; source:
`model_wrapper.rs:11-17`. -/
def ModelWrapper.new (m : HalfEdgeMesh) : ModelWrapper :=
  ⟨m, m.toMesh, false⟩

/-- `ModelWrapper::get_mesh` returns the cache without recomputation; source:
`model_wrapper.rs:19-21`. -/
def ModelWrapper.get_mesh (w : ModelWrapper) : Mesh :=
  w.render_mesh

/-- `ModelWrapper::sync_render_mesh`; source: `model_wrapper.rs:23-29`. -/
def ModelWrapper.sync_render_mesh (w : ModelWrapper) : ModelWrapper :=
  if w.dirty then ⟨w.model, w.model.toMesh, false⟩ else w

/-- Closed union over the mesh representations; source: `model.rs`,
`enum ModelVariant`. -/
inductive ModelVariant where
  | halfEdgeMesh (w : ModelWrapper)
  | mesh (m : Mesh)
deriving DecidableEq, Inhabited

/-- `ModelVariant::get_mesh`; source: `model.rs:22-27`. -/
def ModelVariant.get_mesh : ModelVariant → Mesh
  | .halfEdgeMesh w => w.get_mesh
  | .mesh m => m

/-- `ModelVariant::sync_render_mesh` — a raw mesh is its own cache; source:
`model.rs:29-37`. -/
def ModelVariant.sync_render_mesh : ModelVariant → ModelVariant
  | .halfEdgeMesh w => .halfEdgeMesh w.sync_render_mesh
  | .mesh m => .mesh m

/-- A registry entry: model plus display name; source: `model.rs`,
`struct ModelEntry`. -/
structure ModelEntry where
  model : ModelVariant
  name : String
deriving DecidableEq, Inhabited

/-- `EdgeId` (a process-unique 128-bit UUID in the source) is modelled as a
natural number; `MeshId` likewise. -/
abbrev EdgeId : Type := ℕ

-- The scene-graph tree; source: `scene_graph.rs`, `struct SceneGraphNode`,
-- `struct SceneGraphEdge`, `enum SceneGraphChild`.  A child is an exclusively
-- owned node or a non-owning mesh id into the registry.
mutual
/-- A scene-graph node: local transform and child edges. -/
inductive SceneGraphNode where
  | mk : Transform → List SceneGraphEdge → SceneGraphNode

/-- A scene-graph edge: unique id and child. -/
inductive SceneGraphEdge where
  | mk : EdgeId → SceneGraphChild → SceneGraphEdge

/-- A scene-graph child: owned node or mesh reference. -/
inductive SceneGraphChild where
  | node : SceneGraphNode → SceneGraphChild
  | model : ℕ → SceneGraphChild
end

/-- The node's local transform. -/
def SceneGraphNode.transform : SceneGraphNode → Transform
  | .mk t _ => t

/-- The node's child edges. -/
def SceneGraphNode.edges : SceneGraphNode → List SceneGraphEdge
  | .mk _ es => es

/-- The edge's identifier. -/
def SceneGraphEdge.edge_id : SceneGraphEdge → EdgeId
  | .mk e _ => e

/-- The edge's child. -/
def SceneGraphEdge.child : SceneGraphEdge → SceneGraphChild
  | .mk _ c => c

/-- The mesh registry, `HashMap<MeshId, ModelEntry>` modelled as an
association list. -/
def MeshRegistry : Type := List (ℕ × ModelEntry)

/-- `meshes.get(mesh_id)` on the registry. -/
def MeshRegistry.get (meshes : MeshRegistry) (mid : ℕ) : Option ModelEntry :=
  (List.find? (fun p => p.1 == mid) meshes).map (fun p => p.2)

/-- A world hit: local hit response mapped to world space, squared world
distance (see the header note on square roots), the object id and the EdgeId
selection path; source: `scene_graph.rs` uses the `WorldHitResponse` of the
absent `geometry` module, whose fields are read at
`scene_graph.rs:171,184,187,224-237`. -/
structure WorldHitResponse where
  hit_response : HitResponse
  distance : ℚ
  object_id : ℕ
  selection_path : List EdgeId
deriving DecidableEq, Inhabited

/-- Keep the closer of a running closest hit and a new hit — replace exactly
when the new distance is strictly smaller (`should_replace`/`should_update`);
source: `scene_graph.rs:169-175,182-189,225-231`. -/
def replaceIfCloser (closest : Option WorldHitResponse)
    (hit : WorldHitResponse) : Option WorldHitResponse :=
  match closest with
  | none => some hit
  | some existing =>
      if hit.distance < existing.distance then some hit else some existing

/-- The vertex fetch `p(i)` of `raycast_model`: coordinates `3i, 3i+1, 3i+2`
of the flat buffer; source: `scene_graph.rs:216`. -/
def meshPoint (coords : List ℚ) (i : ℕ) : Point3 :=
  Point3.new (coords.getD (3 * i) 0) (coords.getD (3 * i + 1) 0)
    (coords.getD (3 * i + 2) 0)

/-- Raycast against a single model under a world transform; source:
`scene_graph.rs:203-247`, `SceneGraphNode::raycast_model`: transform the ray
into local space, intersect every index triple (`chunks_exact(3)`, remainder
ignored), map each hit back to world space, and keep the hit of strictly
smallest world distance (first wins on ties); `selection_path` is left empty
for the caller to fill in. -/
def raycast_model (ray : Ray3) (model : ModelVariant) (world : Transform)
    (object_id : ℕ) : Option WorldHitResponse :=
  let mesh := model.get_mesh
  let transformed_ray := ray.inverseTransformBy world
  (chunks3 mesh.face_indices).foldl
    (fun closest tri =>
      match mollerTrumboreIntersectionExteriorAlgebra transformed_ray
          (meshPoint mesh.vertex_coords tri.1)
          (meshPoint mesh.vertex_coords tri.2.1)
          (meshPoint mesh.vertex_coords tri.2.2) with
      | some this_hit =>
          let world_hit := this_hit.transformBy world
          replaceIfCloser closest
            ⟨world_hit, world_hit.hit_direction.vec3.lengthSq, object_id, []⟩
      | none => closest)
    none

/-- Merge a child subtree's closest hit into the running closest — the
`should_replace` comparison of the caller, with the new hit's selection path
overridden by `path` in the model branch (`scene_graph.rs:186-189`). -/
def mergeClosest (closest : Option WorldHitResponse)
    (result : Option WorldHitResponse) : Option WorldHitResponse :=
  match result with
  | none => closest
  | some hit => replaceIfCloser closest hit

-- Pre-order raycast over the scene graph, threading the object-id counter
-- and the accumulated EdgeId path; source: `scene_graph.rs:148-200`,
-- `SceneGraphNode::raycast_closest_hit`: compose the world transform, then for
-- each edge push its id on the path, recurse (node child) or raycast the
-- registered model (model child, counter incremented after), and keep the
-- strictly closest hit, first found winning ties.  (`raycastEdges` is the
-- edge loop with its running `closest` accumulator.)
mutual
/-- Raycast entry for one node; source: `scene_graph.rs:148-159`. -/
def raycastNode (ray : Ray3) (parent : Transform) (object_id : ℕ)
    (meshes : MeshRegistry) (path : List EdgeId) :
    SceneGraphNode → Option WorldHitResponse × ℕ
  | .mk t edges =>
      raycastEdges ray (Transform.compose_with_parent t parent) object_id
        meshes path edges none

/-- Raycast loop over a node's edges; source: `scene_graph.rs:162-199`. -/
def raycastEdges (ray : Ray3) (world : Transform) (object_id : ℕ)
    (meshes : MeshRegistry) (path : List EdgeId) :
    List SceneGraphEdge → Option WorldHitResponse → Option WorldHitResponse × ℕ
  | [], closest => (closest, object_id)
  | .mk eid child :: rest, closest =>
      match child with
      | .node child_node =>
          let r := raycastNode ray world object_id meshes (path ++ [eid])
            child_node
          raycastEdges ray world r.2 meshes path rest (mergeClosest closest r.1)
      | .model mid =>
          match MeshRegistry.get meshes mid with
          | some entry =>
              match raycast_model ray entry.model world object_id with
              | some hit =>
                  raycastEdges ray world (object_id + 1) meshes path rest
                    (mergeClosest closest
                      (some { hit with selection_path := path ++ [eid] }))
              | none =>
                  raycastEdges ray world (object_id + 1) meshes path rest
                    closest
          | none =>
              raycastEdges ray world (object_id + 1) meshes path rest closest
end

/-- Specification-side enumeration of one leaf's hits, in triangle order:
the world hit response of every triangle the transformed ray intersects,
annotated with squared world distance, the leaf's object id and the given
selection path.  This follows the spec's description of the raycast
(`run 4.6 against every triangle of the leaf's flat mesh, map hits back to
world space`); `raycast_model` is proved to pick the first minimum of this
list. -/
def leafHits (ray : Ray3) (model : ModelVariant) (world : Transform)
    (object_id : ℕ) (path : List EdgeId) : List WorldHitResponse :=
  (chunks3 model.get_mesh.face_indices).filterMap
    (fun tri =>
      (mollerTrumboreIntersectionExteriorAlgebra (ray.inverseTransformBy world)
          (meshPoint model.get_mesh.vertex_coords tri.1)
          (meshPoint model.get_mesh.vertex_coords tri.2.1)
          (meshPoint model.get_mesh.vertex_coords tri.2.2)).map
        (fun th =>
          let world_hit := th.transformBy world
          ⟨world_hit, world_hit.hit_direction.vec3.lengthSq, object_id, path⟩))

-- Specification-side enumeration of every hit of the traversal, in pre-order
-- traversal order, threading the same object-id counter as the raycast.  The
-- claim's characterization of `raycast_closest_hit` is stated against this
-- list.
mutual
/-- All hits of a subtree, in traversal order. -/
def allHitsNode (ray : Ray3) (parent : Transform) (object_id : ℕ)
    (meshes : MeshRegistry) (path : List EdgeId) :
    SceneGraphNode → List WorldHitResponse × ℕ
  | .mk t edges =>
      allHitsEdges ray (Transform.compose_with_parent t parent) object_id
        meshes path edges

/-- All hits of an edge list, in traversal order. -/
def allHitsEdges (ray : Ray3) (world : Transform) (object_id : ℕ)
    (meshes : MeshRegistry) (path : List EdgeId) :
    List SceneGraphEdge → List WorldHitResponse × ℕ
  | [] => ([], object_id)
  | .mk eid child :: rest =>
      match child with
      | .node child_node =>
          let r := allHitsNode ray world object_id meshes (path ++ [eid])
            child_node
          let rr := allHitsEdges ray world r.2 meshes path rest
          (r.1 ++ rr.1, rr.2)
      | .model mid =>
          let hits :=
            match MeshRegistry.get meshes mid with
            | some entry => leafHits ray entry.model world object_id (path ++ [eid])
            | none => []
          let rr := allHitsEdges ray world (object_id + 1) meshes path rest
          (hits ++ rr.1, rr.2)
end

/-- The first hit of globally minimal distance in a list — the fold of
`replaceIfCloser` from `none`. -/
def firstMin (l : List WorldHitResponse) : Option WorldHitResponse :=
  l.foldl replaceIfCloser none

/-- A flattened render instance; `scene_graph.rs:132-137` constructs it with
mesh id, world transform, traversal object id and selection flag (the
`RenderInstance` definition in the sources predates the `is_selected` field,
which the spec's §6 and the construction site fix). -/
structure RenderInstance where
  mesh_id : ℕ
  transform : Transform
  id : ℕ
  is_selected : Bool
deriving DecidableEq, Inhabited

-- Pre-order flattening into render instances; source:
-- `scene_graph.rs:99-144`, `SceneGraphNode::flatten_to_render_instances`.
mutual
/-- Flatten one node: compose the world transform, then walk the edges. -/
def flattenNode (parent : Transform) (object_id : ℕ) (meshes : MeshRegistry)
    (current_path : List EdgeId) (selected_path : Option (List EdgeId)) :
    SceneGraphNode → List RenderInstance × ℕ
  | .mk t edges =>
      flattenEdges (Transform.compose_with_parent t parent) object_id meshes
        current_path selected_path edges

/-- Flatten an edge list: recurse into node children, emit one instance per
mesh-reference child (selection flag true iff the selected path is a prefix
of the child path or vice versa, `scene_graph.rs:127-129`). -/
def flattenEdges (world : Transform) (object_id : ℕ) (meshes : MeshRegistry)
    (current_path : List EdgeId) (selected_path : Option (List EdgeId)) :
    List SceneGraphEdge → List RenderInstance × ℕ
  | [] => ([], object_id)
  | .mk eid child :: rest =>
      match child with
      | .node child_node =>
          let r := flattenNode world object_id meshes (current_path ++ [eid])
            selected_path child_node
          let rr := flattenEdges world r.2 meshes current_path selected_path rest
          (r.1 ++ rr.1, rr.2)
      | .model mid =>
          let is_selected :=
            match selected_path with
            | some sel =>
                sel.isPrefixOf (current_path ++ [eid]) ||
                  (current_path ++ [eid]).isPrefixOf sel
            | none => false
          let rr := flattenEdges world (object_id + 1) meshes current_path
            selected_path rest
          (⟨mid, world, object_id, is_selected⟩ :: rr.1, rr.2)
end

/-- Synchronize the registry entry of one mesh id
(`entry.model.sync_render_mesh()` through `meshes.get_mut`,
`scene_graph.rs:89-91`). -/
def syncEntry (meshes : MeshRegistry) (mid : ℕ) : MeshRegistry :=
  meshes.map (fun p =>
    if p.1 = mid then (p.1, { p.2 with model := p.2.model.sync_render_mesh })
    else p)

-- Sync every render mesh reachable from a subtree; source:
-- `scene_graph.rs:82-95`, `SceneGraphNode::sync_render_mesh`.
mutual
/-- Sync pass over one node. -/
def syncNode (meshes : MeshRegistry) : SceneGraphNode → MeshRegistry
  | .mk _ edges => syncEdges meshes edges

/-- Sync pass over an edge list. -/
def syncEdges (meshes : MeshRegistry) : List SceneGraphEdge → MeshRegistry
  | [] => meshes
  | .mk _ child :: rest =>
      match child with
      | .node child_node => syncEdges (syncNode meshes child_node) rest
      | .model mid => syncEdges (syncEntry meshes mid) rest
end

/-- The scene: root node, JS dirty flag, mesh registry, cached render
instances, hierarchy-dirty flag and optional selection path; source:
`scene.rs:30-37`, `struct Scene`. -/
structure Scene where
  root : SceneGraphNode
  dirty : Bool
  meshes : MeshRegistry
  cached_render_instances : List RenderInstance
  hierarchy_dirty : Bool
  selected_path : Option (List EdgeId)

/-- `Scene::new`; source: `scene.rs:40-49` — empty root, not dirty, empty
registry, empty cache, hierarchy dirty, no selection. -/
def Scene.new : Scene :=
  ⟨.mk Transform.identity [], false, [], [], true, none⟩

/-- `Scene::rebuild_cache`; source: `scene.rs:52-72`: a no-op unless the
hierarchy is dirty; otherwise sync all render meshes, rebuild the flat
instance list from the root with identity parent transform and a counter
starting at 0, clear the hierarchy-dirty flag and set the JS dirty flag. -/
def Scene.rebuild_cache (s : Scene) : Scene :=
  if ¬ s.hierarchy_dirty then s
  else
    let meshes' := syncNode s.meshes s.root
    let r := flattenNode Transform.identity 0 meshes' [] s.selected_path s.root
    { s with meshes := meshes',
             cached_render_instances := r.1,
             hierarchy_dirty := false,
             dirty := true }

/-- `Scene::update_transform`; source: `scene.rs:158-167`: if `id` addresses
a root edge whose child is a node, replace that node's transform, set the JS
dirty flag and return true; otherwise return false and change nothing.  Note
that the hierarchy-dirty flag is not touched. -/
def Scene.update_transform (s : Scene) (id : ℕ) (t : Transform) :
    Scene × Bool :=
  match s.root.edges[id]? with
  | some edge =>
      match edge.child with
      | .node n =>
          ({ s with
              root := .mk s.root.transform
                (s.root.edges.set id (.mk edge.edge_id (.node (.mk t n.edges)))),
              dirty := true }, true)
      | .model _ => (s, false)
  | none => (s, false)

/-- `Scene::get_render_instances`; source: `scene.rs:184-187`: rebuild the
cache (if dirty) and return the cached list, together with the updated
scene. -/
def Scene.get_render_instances (s : Scene) : List RenderInstance × Scene :=
  let s' := s.rebuild_cache
  (s'.cached_render_instances, s')

/-- `Scene::raycast_closest_hit`; source: `scene.rs:169-174`: raycast from
the root with identity transform, counter 0 and empty path. -/
def Scene.raycast_closest_hit (s : Scene) (ray : Ray3) :
    Option WorldHitResponse :=
  (raycastNode ray Transform.identity 0 s.meshes [] s.root).1

/-- The validation loop of `edge_path_is_valid`; source: `scene.rs:234-251`:
walk the path from the current node; a missing edge fails, a node child
continues, a mesh-reference child succeeds only as the last element; a fully
consumed path succeeds. -/
def edgePathIsValidGo : SceneGraphNode → List EdgeId → Bool
  | _, [] => true
  | n, e :: rest =>
      match n.edges.find? (fun ed => ed.edge_id == e) with
      | none => false
      | some ed =>
          match ed.child with
          | .node child => edgePathIsValidGo child rest
          | .model _ => rest.isEmpty

/-- `Scene::edge_path_is_valid`; source: `scene.rs:229-252`: the empty path
is invalid, otherwise the walk decides. -/
def Scene.edge_path_is_valid (s : Scene) (path : List EdgeId) : Bool :=
  if path.isEmpty then false else edgePathIsValidGo s.root path

/-- `Scene::select_by_edge_path`; source: `scene.rs:210-218`: on a valid
path, replace the selection, mark the hierarchy dirty and return true; on an
invalid path return false leaving the scene unchanged. -/
def Scene.select_by_edge_path (s : Scene) (path : List EdgeId) :
    Scene × Bool :=
  if s.edge_path_is_valid path then
    ({ s with selected_path := some path, hierarchy_dirty := true }, true)
  else (s, false)

/-- C10: selecting by the empty path always fails and leaves the scene —
selection included — entirely unchanged: `edge_path_is_valid` rejects the
empty path up front (`scene.rs:230-232`), even though no element of an empty
path fails to resolve. -/
theorem select_empty_path_fails (s : Scene) :
    s.select_by_edge_path [] = (s, false) := by
  simp [Scene.select_by_edge_path, Scene.edge_path_is_valid]

/-- Identity composed with identity is the identity — the concrete rational
computation of the spec-modelled composition. -/
theorem compose_identity_identity :
    Transform.compose_with_parent Transform.identity Transform.identity
      = Transform.identity := by
  norm_num [Transform.compose_with_parent, Transform.identity, Vec3.transformBy,
    rotateByNormalizedQuat, quatSandwich, Quat.normSq, Quat.mul, Vec3.dot,
    Vec3.cross]

/-- The inner node of the C3 scenario: identity transform, one mesh leaf. -/
def c3NodeA : SceneGraphNode :=
  .mk Transform.identity [.mk 11 (.model 0)]

/-- The C3 scenario scene before its first rebuild: one node child holding a
mesh leaf, a registered raw mesh, hierarchy dirty (as after construction). -/
def c3SceneDirty : Scene :=
  ⟨.mk Transform.identity [.mk 10 (.node c3NodeA)], false,
    [(0, ⟨.mesh triMeshExample, ""⟩)], [], true, none⟩

/-- The C3 scenario scene in the clean state (cache rebuilt). -/
def c3Clean : Scene :=
  c3SceneDirty.rebuild_cache

/-- The replacement transform of the C3 scenario: translation `(1,2,3)`. -/
def tNew : Transform :=
  ⟨⟨1, 2, 3⟩, ⟨0, 0, 0, 1⟩, ⟨1, 1, 1⟩⟩

/-- The clean C3 scene, computed. -/
theorem c3Clean_eq :
    c3Clean = ⟨.mk Transform.identity [.mk 10 (.node c3NodeA)], true,
      [(0, ⟨.mesh triMeshExample, ""⟩)],
      [⟨0, Transform.identity, 0, false⟩], false, none⟩ := by
  unfold c3Clean c3SceneDirty Scene.rebuild_cache
  simp [syncNode, syncEdges, syncEntry, flattenNode, flattenEdges, c3NodeA,
    compose_identity_identity, ModelVariant.sync_render_mesh]

/-- C3 fails on the code: `update_transform` never touches the
hierarchy-dirty flag (first conjunct, every scene), and concretely, starting
from a clean scene with one node child, a successful `update_transform`
leaves the flag clean, so the next `get_render_instances` serves the stale
cached instance still carrying the old (identity) transform rather than
rebuilding with the new one. -/
theorem update_transform_leaves_hierarchy_clean :
    (∀ (s : Scene) (id : ℕ) (t : Transform),
      ((s.update_transform id t).1).hierarchy_dirty = s.hierarchy_dirty) ∧
    c3Clean.hierarchy_dirty = false ∧
    (c3Clean.update_transform 0 tNew).2 = true ∧
    ((c3Clean.update_transform 0 tNew).1).hierarchy_dirty = false ∧
    ((c3Clean.update_transform 0 tNew).1.get_render_instances).1.map
        (fun ri => ri.transform) = [Transform.identity] ∧
    tNew ≠ Transform.identity := by
  refine ⟨?_, ?_, ?_, ?_, ?_, ?_⟩
  · intro s id t
    unfold Scene.update_transform
    cases s.root.edges[id]? with
    | none => rfl
    | some edge =>
        cases edge with
        | mk eid child =>
            cases child with
            | node n => rfl
            | model mid => rfl
  · rw [c3Clean_eq]
  · rw [c3Clean_eq]
    simp [Scene.update_transform, c3NodeA, SceneGraphEdge.child,
      SceneGraphNode.edges, SceneGraphEdge.edge_id]
  · rw [c3Clean_eq]
    simp [Scene.update_transform, c3NodeA, SceneGraphEdge.child,
      SceneGraphNode.edges, SceneGraphEdge.edge_id]
  · rw [c3Clean_eq]
    simp [Scene.update_transform, c3NodeA, SceneGraphEdge.child,
      SceneGraphNode.edges, SceneGraphEdge.edge_id,
      Scene.get_render_instances, Scene.rebuild_cache]
  · intro h
    have hx : (1 : ℚ) = 0 := congrArg (fun t => t.position.x) h
    norm_num at hx

/-- Specification-side path resolution, following the claim's words: every
element of the path resolves through an existing edge starting from the given
node, and a mesh-reference edge may appear only as the final element.  The
empty remainder resolves trivially. -/
def ResolvesSpec : SceneGraphNode → List EdgeId → Prop
  | _, [] => True
  | n, e :: rest =>
      ∃ ed, ed ∈ n.edges ∧ ed.edge_id = e ∧
        ((∃ m, ed.child = SceneGraphChild.node m ∧ ResolvesSpec m rest) ∨
         (∃ mid, ed.child = SceneGraphChild.model mid ∧ rest = []))

/-- Well-formedness of a scene tree: edge ids are process-unique — distinct
at every node (the source generates them as fresh UUIDs). -/
inductive WFEdges : SceneGraphNode → Prop where
  | mk : ∀ (t : Transform) (edges : List SceneGraphEdge),
      (edges.map SceneGraphEdge.edge_id).Nodup →
      (∀ e ∈ edges, ∀ m, e.child = SceneGraphChild.node m → WFEdges m) →
      WFEdges (.mk t edges)

/-- The edge ids of a well-formed node are distinct. -/
theorem WFEdges.ids_nodup {n : SceneGraphNode} (h : WFEdges n) :
    (n.edges.map SceneGraphEdge.edge_id).Nodup := by
  cases h with
  | mk t edges hnd hch => simpa [SceneGraphNode.edges] using hnd

/-- Node children of a well-formed node are well-formed. -/
theorem WFEdges.child_wf {n : SceneGraphNode} (h : WFEdges n) :
    ∀ e ∈ n.edges, ∀ m, e.child = SceneGraphChild.node m → WFEdges m := by
  cases h with
  | mk t edges hnd hch => simpa [SceneGraphNode.edges] using hch

/-- The validation walk agrees with the specification-side resolution on
well-formed trees. -/
theorem edgePathIsValidGo_iff :
    ∀ (path : List EdgeId) (n : SceneGraphNode), WFEdges n →
      (edgePathIsValidGo n path = true ↔ ResolvesSpec n path)
  | [], n, _ => by simp [edgePathIsValidGo, ResolvesSpec]
  | e :: rest, n, hwf => by
      cases hfind : n.edges.find? (fun ed => ed.edge_id == e) with
      | none =>
          simp only [edgePathIsValidGo, hfind, ResolvesSpec]
          constructor
          · intro h
            cases h
          · rintro ⟨ed, hmem, hid, _⟩
            have := List.find?_eq_none.mp hfind ed hmem
            simp only [beq_iff_eq] at this
            exact absurd hid this
      | some ed =>
          have hmem : ed ∈ n.edges := List.mem_of_find?_eq_some hfind
          have hid : ed.edge_id = e := by
            have := List.find?_some hfind
            simpa using this
          have huniq : ∀ ed2 ∈ n.edges, ed2.edge_id = e → ed2 = ed := by
            intro ed2 hmem2 hid2
            exact List.inj_on_of_nodup_map hwf.ids_nodup hmem2 hmem
              (by rw [hid2, hid])
          cases hchild : ed.child with
          | node m =>
              have hwfm : WFEdges m := hwf.child_wf ed hmem m hchild
              have ihm := edgePathIsValidGo_iff rest m hwfm
              simp only [edgePathIsValidGo, hfind, hchild, ResolvesSpec]
              constructor
              · intro h
                exact ⟨ed, hmem, hid, Or.inl ⟨m, hchild, ihm.mp h⟩⟩
              · rintro ⟨ed2, hmem2, hid2, hcase⟩
                have hed2 : ed2 = ed := huniq ed2 hmem2 hid2
                subst hed2
                rcases hcase with ⟨m2, hm2, hres⟩ | ⟨mid2, hm2, _⟩
                · rw [hchild] at hm2
                  cases hm2
                  exact ihm.mpr hres
                · rw [hchild] at hm2
                  cases hm2
          | model mid =>
              simp only [edgePathIsValidGo, hfind, hchild, ResolvesSpec,
                List.isEmpty_iff]
              constructor
              · intro h
                exact ⟨ed, hmem, hid, Or.inr ⟨mid, hchild, h⟩⟩
              · rintro ⟨ed2, hmem2, hid2, hcase⟩
                have hed2 : ed2 = ed := huniq ed2 hmem2 hid2
                subst hed2
                rcases hcase with ⟨m2, hm2, _⟩ | ⟨mid2, hm2, hrest⟩
                · rw [hchild] at hm2
                  cases hm2
                · exact hrest

/-- C7: for every scene with process-unique edge ids and every non-empty
path, `select_by_edge_path` succeeds exactly when every element of the path
resolves through an existing edge from the root with a mesh-reference edge
only as the final element; on success it replaces the selection with the path
and marks the hierarchy dirty (and changes nothing else); on failure it
returns false and leaves the scene entirely unchanged. -/
theorem select_by_edge_path_spec (s : Scene) (path : List EdgeId)
    (hwf : WFEdges s.root) (hne : path ≠ []) :
    ((s.select_by_edge_path path).2 = true ↔ ResolvesSpec s.root path) ∧
    ((s.select_by_edge_path path).2 = true →
      (s.select_by_edge_path path).1
        = { s with selected_path := some path, hierarchy_dirty := true }) ∧
    ((s.select_by_edge_path path).2 = false →
      (s.select_by_edge_path path).1 = s) := by
  have hvalid : s.edge_path_is_valid path = edgePathIsValidGo s.root path := by
    rw [Scene.edge_path_is_valid, if_neg (by simpa [List.isEmpty_iff] using hne)]
  have hiff := edgePathIsValidGo_iff path s.root hwf
  by_cases hv : s.edge_path_is_valid path = true
  · have hres : ResolvesSpec s.root path := hiff.mp (by rw [← hvalid]; exact hv)
    refine ⟨⟨fun _ => hres, fun _ => ?_⟩, fun _ => ?_, fun hfalse => ?_⟩
    · simp [Scene.select_by_edge_path, hv]
    · simp [Scene.select_by_edge_path, hv]
    · exfalso
      simp [Scene.select_by_edge_path, hv] at hfalse
  · have hnres : ¬ ResolvesSpec s.root path := fun hr =>
      hv (by rw [hvalid]; exact hiff.mpr hr)
    refine ⟨⟨fun htrue => ?_, fun hr => absurd hr hnres⟩,
      fun htrue => ?_, fun _ => ?_⟩
    · exfalso
      simp [Scene.select_by_edge_path, hv] at htrue
    · exfalso
      simp [Scene.select_by_edge_path, hv] at htrue
    · simp [Scene.select_by_edge_path, hv]

/-- The C7 witness scene: one mesh-reference edge with id 5 at the root. -/
def c7Scene : Scene :=
  ⟨.mk Transform.identity [.mk 5 (.model 0)], false, [], [], false, none⟩

/-- Witness for `select_by_edge_path_spec` at the concrete scene and the
one-element path `[5]`: the hypotheses (well-formed ids, non-empty path) are
discharged concretely. -/
theorem select_by_edge_path_spec_witness :
    ((c7Scene.select_by_edge_path [5]).2 = true ↔ ResolvesSpec c7Scene.root [5]) ∧
    ((c7Scene.select_by_edge_path [5]).2 = true →
      (c7Scene.select_by_edge_path [5]).1
        = { c7Scene with selected_path := some [5], hierarchy_dirty := true }) ∧
    ((c7Scene.select_by_edge_path [5]).2 = false →
      (c7Scene.select_by_edge_path [5]).1 = c7Scene) := by
  have hwf : WFEdges c7Scene.root := by
    refine WFEdges.mk _ _ (by simp) ?_
    rintro e he m hm
    simp only [List.mem_singleton] at he
    subst he
    simp only [SceneGraphEdge.child] at hm
    cases hm
  exact select_by_edge_path_spec c7Scene [5] hwf (by simp)

/-- `replaceIfCloser` on an empty accumulator. -/
theorem replaceIfCloser_none (x : WorldHitResponse) :
    replaceIfCloser none x = some x := rfl

/-- `replaceIfCloser` on a non-empty accumulator, in if-then-else form. -/
theorem replaceIfCloser_some (e x : WorldHitResponse) :
    replaceIfCloser (some e) x
      = if x.distance < e.distance then some x else some e := rfl

/-- Merging into an empty accumulator yields the result. -/
theorem mergeClosest_none_left (r : Option WorldHitResponse) :
    mergeClosest none r = r := by
  cases r <;> rfl

/-- Merging an empty result leaves the accumulator. -/
theorem mergeClosest_none_right (a : Option WorldHitResponse) :
    mergeClosest a none = a := rfl

/-- Merging two present hits, in if-then-else form. -/
theorem mergeClosest_some_some (e x : WorldHitResponse) :
    mergeClosest (some e) (some x)
      = if x.distance < e.distance then some x else some e := rfl

/-- The merge commutes with an if-then-else in its first argument. -/
theorem mergeClosest_ite_left (c : Prop) [Decidable c]
    (x y m : Option WorldHitResponse) :
    mergeClosest (if c then x else y) m
      = if c then mergeClosest x m else mergeClosest y m := by
  split_ifs <;> rfl

/-- The merge commutes with an if-then-else in its second argument. -/
theorem mergeClosest_ite_right (a : Option WorldHitResponse) (c : Prop)
    [Decidable c] (x y : Option WorldHitResponse) :
    mergeClosest a (if c then x else y)
      = if c then mergeClosest a x else mergeClosest a y := by
  split_ifs <;> rfl

/-- `replaceIfCloser` followed by a merge is a merge of merges. -/
theorem merge_replace (a : Option WorldHitResponse) (x : WorldHitResponse)
    (m : Option WorldHitResponse) :
    mergeClosest (replaceIfCloser a x) m
      = mergeClosest a (mergeClosest (some x) m) := by
  rcases a with _ | e <;> rcases m with _ | h <;>
    simp only [replaceIfCloser_none, replaceIfCloser_some, mergeClosest_none_left,
      mergeClosest_none_right, mergeClosest_some_some, mergeClosest_ite_left,
      mergeClosest_ite_right] <;>
    split_ifs <;>
    first
      | rfl
      | (exfalso; linarith)

/-- Associativity of the closest-hit merge. -/
theorem mergeClosest_assoc (a b c : Option WorldHitResponse) :
    mergeClosest (mergeClosest a b) c = mergeClosest a (mergeClosest b c) := by
  rcases a with _ | p <;> rcases b with _ | q <;> rcases c with _ | r <;>
    simp only [replaceIfCloser_none, replaceIfCloser_some, mergeClosest_none_left,
      mergeClosest_none_right, mergeClosest_some_some, mergeClosest_ite_left,
      mergeClosest_ite_right] <;>
    split_ifs <;>
    first
      | rfl
      | (exfalso; linarith)

/-- The running fold of `replaceIfCloser` is the merge of the accumulator
with the list's first minimum. -/
theorem foldl_replaceIfCloser :
    ∀ (l : List WorldHitResponse) (a : Option WorldHitResponse),
      l.foldl replaceIfCloser a = mergeClosest a (firstMin l)
  | [], a => rfl
  | x :: t, a => by
      have h1 : (x :: t).foldl replaceIfCloser a
          = t.foldl replaceIfCloser (replaceIfCloser a x) := rfl
      have h2 := foldl_replaceIfCloser t (replaceIfCloser a x)
      have h3 := foldl_replaceIfCloser t (replaceIfCloser none x)
      have h4 : firstMin (x :: t) = mergeClosest (some x) (firstMin t) := by
        show t.foldl replaceIfCloser (replaceIfCloser none x) = _
        rw [h3]
        rfl
      rw [h1, h2, merge_replace, h4]

/-- The first minimum of a cons. -/
theorem firstMin_cons (x : WorldHitResponse) (t : List WorldHitResponse) :
    firstMin (x :: t) = mergeClosest (some x) (firstMin t) := by
  show t.foldl replaceIfCloser (replaceIfCloser none x) = _
  rw [foldl_replaceIfCloser]
  rfl

/-- The first minimum of an append is the merge of the first minima. -/
theorem firstMin_append (l₁ l₂ : List WorldHitResponse) :
    firstMin (l₁ ++ l₂) = mergeClosest (firstMin l₁) (firstMin l₂) := by
  show (l₁ ++ l₂).foldl replaceIfCloser none = _
  rw [List.foldl_append, foldl_replaceIfCloser]
  rfl

/-- The first minimum is `none` exactly on the empty list. -/
theorem firstMin_eq_none_iff (l : List WorldHitResponse) :
    firstMin l = none ↔ l = [] := by
  cases l with
  | nil => exact ⟨fun _ => rfl, fun _ => rfl⟩
  | cons x t =>
      rw [firstMin_cons]
      constructor
      · intro h
        exfalso
        cases hft : firstMin t with
        | none =>
            rw [hft, mergeClosest_none_right] at h
            exact Option.noConfusion h
        | some m =>
            rw [hft, mergeClosest_some_some] at h
            split_ifs at h
      · intro h
        exact absurd h (List.cons_ne_nil x t)

/-- Decomposition around the first minimum: it is in the list, everything
before it is strictly farther, everything after it at least as far. -/
theorem firstMin_some :
    ∀ (l : List WorldHitResponse) (h : WorldHitResponse),
      firstMin l = some h →
      ∃ pre post, l = pre ++ h :: post ∧
        (∀ x ∈ pre, h.distance < x.distance) ∧
        (∀ x ∈ post, h.distance ≤ x.distance)
  | [], h, hl => by cases hl
  | x :: t, h, hl => by
      rw [firstMin_cons] at hl
      cases hft : firstMin t with
      | none =>
          rw [hft] at hl
          have hx : h = x := by
            rw [mergeClosest_none_right] at hl
            exact (Option.some.inj hl).symm
          subst hx
          have ht : t = [] := (firstMin_eq_none_iff t).mp hft
          subst ht
          exact ⟨[], [], rfl, by simp, by simp⟩
      | some m =>
          rw [hft] at hl
          rcases firstMin_some t m hft with ⟨pre, post, hsplit, hpre, hpost⟩
          rw [mergeClosest_some_some] at hl
          by_cases hcmp : m.distance < x.distance
          · rw [if_pos hcmp] at hl
            have hm : h = m := (Option.some.inj hl).symm
            subst hm
            refine ⟨x :: pre, post, by rw [hsplit]; rfl, ?_, hpost⟩
            intro y hy
            rcases List.mem_cons.mp hy with hyx | hyp
            · rw [hyx]; exact hcmp
            · exact hpre y hyp
          · rw [if_neg hcmp] at hl
            have hx : h = x := (Option.some.inj hl).symm
            subst hx
            push_neg at hcmp
            refine ⟨[], t, by simp, by simp, ?_⟩
            intro y hy
            rw [hsplit] at hy
            rcases List.mem_append.mp hy with hyp | hym
            · exact le_trans hcmp (le_of_lt (hpre y hyp))
            · rcases List.mem_cons.mp hym with hy1 | hy2
              · rw [hy1]; exact hcmp
              · exact le_trans hcmp (hpost y hy2)

/-- `raycast_model` computes the first minimum of the leaf's hit list (with
empty selection path). -/
theorem raycast_model_eq_firstMin (ray : Ray3) (model : ModelVariant)
    (world : Transform) (object_id : ℕ) :
    raycast_model ray model world object_id
      = firstMin (leafHits ray model world object_id []) := by
  have key : ∀ (l : List (ℕ × ℕ × ℕ)) (a : Option WorldHitResponse),
      l.foldl
        (fun closest tri =>
          match mollerTrumboreIntersectionExteriorAlgebra
              (ray.inverseTransformBy world)
              (meshPoint model.get_mesh.vertex_coords tri.1)
              (meshPoint model.get_mesh.vertex_coords tri.2.1)
              (meshPoint model.get_mesh.vertex_coords tri.2.2) with
          | some this_hit =>
              let world_hit := this_hit.transformBy world
              replaceIfCloser closest
                ⟨world_hit, world_hit.hit_direction.vec3.lengthSq, object_id, []⟩
          | none => closest) a
      = List.foldl replaceIfCloser a
          (l.filterMap (fun tri =>
            (mollerTrumboreIntersectionExteriorAlgebra
                (ray.inverseTransformBy world)
                (meshPoint model.get_mesh.vertex_coords tri.1)
                (meshPoint model.get_mesh.vertex_coords tri.2.1)
                (meshPoint model.get_mesh.vertex_coords tri.2.2)).map
              (fun th =>
                let world_hit := th.transformBy world
                ⟨world_hit, world_hit.hit_direction.vec3.lengthSq, object_id,
                  []⟩))) := by
    intro l
    induction l with
    | nil => intro a; rfl
    | cons x t ih =>
        intro a
        cases hf : mollerTrumboreIntersectionExteriorAlgebra
            (ray.inverseTransformBy world)
            (meshPoint model.get_mesh.vertex_coords x.1)
            (meshPoint model.get_mesh.vertex_coords x.2.1)
            (meshPoint model.get_mesh.vertex_coords x.2.2) with
        | none =>
            rw [List.foldl_cons, List.filterMap_cons]
            simp only [hf, Option.map_none']
            exact ih a
        | some th =>
            rw [List.foldl_cons, List.filterMap_cons]
            simp only [hf, Option.map_some']
            rw [List.foldl_cons]
            exact ih _
  exact key (chunks3 model.get_mesh.face_indices) none

/-- Distance-preserving maps commute with the `replaceIfCloser` fold. -/
theorem foldl_replace_map (g : WorldHitResponse → WorldHitResponse)
    (hg : ∀ x, (g x).distance = x.distance) :
    ∀ (l : List WorldHitResponse) (a : Option WorldHitResponse),
      List.foldl replaceIfCloser (Option.map g a) (l.map g)
        = Option.map g (List.foldl replaceIfCloser a l)
  | [], a => rfl
  | x :: t, a => by
      have hstep : replaceIfCloser (Option.map g a) (g x)
          = Option.map g (replaceIfCloser a x) := by
        cases a with
        | none => rfl
        | some e =>
            simp only [Option.map_some', replaceIfCloser, hg]
            split_ifs <;> rfl
      rw [List.map_cons, List.foldl_cons, List.foldl_cons, hstep]
      exact foldl_replace_map g hg t (replaceIfCloser a x)

/-- The annotated leaf hit list is the map of the unannotated one. -/
theorem leafHits_path (ray : Ray3) (model : ModelVariant) (world : Transform)
    (object_id : ℕ) (p : List EdgeId) :
    leafHits ray model world object_id p
      = (leafHits ray model world object_id []).map
          (fun h => { h with selection_path := p }) := by
  unfold leafHits
  rw [List.map_filterMap]
  congr 1
  funext tri
  rw [Option.map_map]
  rfl

/-- The first minimum of an annotated leaf list is the annotated result of
`raycast_model`. -/
theorem firstMin_leafHits (ray : Ray3) (model : ModelVariant)
    (world : Transform) (object_id : ℕ) (p : List EdgeId) :
    firstMin (leafHits ray model world object_id p)
      = Option.map (fun h => { h with selection_path := p })
          (raycast_model ray model world object_id) := by
  rw [leafHits_path, raycast_model_eq_firstMin]
  exact foldl_replace_map (fun h => { h with selection_path := p })
    (fun _ => rfl) (leafHits ray model world object_id []) none

-- The traversal raycast computes the first minimum of the pre-order hit
-- enumeration, threading the same counter.
mutual
/-- A node's raycast returns the first minimum of its subtree's hit list. -/
theorem raycastNode_spec :
    ∀ (ray : Ray3) (parent : Transform) (object_id : ℕ)
      (meshes : MeshRegistry) (path : List EdgeId) (n : SceneGraphNode),
      raycastNode ray parent object_id meshes path n
        = (firstMin (allHitsNode ray parent object_id meshes path n).1,
           (allHitsNode ray parent object_id meshes path n).2)
  | ray, parent, object_id, meshes, path, .mk t edges => by
      simp only [raycastNode, allHitsNode]
      rw [raycastEdges_spec ray (Transform.compose_with_parent t parent)
        object_id meshes path edges none]
      rw [mergeClosest_none_left]

/-- The edge loop merges the running closest with the first minimum of the
remaining edges' hit list. -/
theorem raycastEdges_spec :
    ∀ (ray : Ray3) (world : Transform) (object_id : ℕ)
      (meshes : MeshRegistry) (path : List EdgeId)
      (edges : List SceneGraphEdge) (closest : Option WorldHitResponse),
      raycastEdges ray world object_id meshes path edges closest
        = (mergeClosest closest
             (firstMin (allHitsEdges ray world object_id meshes path edges).1),
           (allHitsEdges ray world object_id meshes path edges).2)
  | ray, world, object_id, meshes, path, [], closest => rfl
  | ray, world, object_id, meshes, path, .mk eid child :: rest, closest => by
      cases child with
      | node child_node =>
          simp only [raycastEdges, allHitsEdges]
          rw [raycastNode_spec ray world object_id meshes (path ++ [eid])
            child_node]
          rw [raycastEdges_spec ray world
            (allHitsNode ray world object_id meshes (path ++ [eid])
              child_node).2 meshes path rest
            (mergeClosest closest
              (firstMin (allHitsNode ray world object_id meshes (path ++ [eid])
                child_node).1))]
          rw [firstMin_append, mergeClosest_assoc]
      | model mid =>
          cases hreg : MeshRegistry.get meshes mid with
          | none =>
              simp only [raycastEdges, allHitsEdges, hreg]
              rw [raycastEdges_spec ray world (object_id + 1) meshes path rest
                closest]
              simp only [List.nil_append]
          | some entry =>
              cases hrm : raycast_model ray entry.model world object_id with
              | none =>
                  simp only [raycastEdges, allHitsEdges, hreg, hrm]
                  rw [raycastEdges_spec ray world (object_id + 1) meshes path
                    rest closest]
                  rw [firstMin_append, firstMin_leafHits, hrm]
                  simp only [Option.map_none', mergeClosest_none_left]
              | some hit =>
                  simp only [raycastEdges, allHitsEdges, hreg, hrm]
                  rw [raycastEdges_spec ray world (object_id + 1) meshes path
                    rest
                    (mergeClosest closest
                      (some { hit with selection_path := path ++ [eid] }))]
                  rw [firstMin_append, firstMin_leafHits, hrm]
                  simp only [Option.map_some']
                  rw [mergeClosest_assoc]
end

/-- Specification-side list of every hit of the whole scene raycast, in
pre-order traversal order, starting like `Scene::raycast_closest_hit` from
the root with identity parent transform, counter 0 and empty path. -/
def Scene.allHits (s : Scene) (ray : Ray3) : List WorldHitResponse :=
  (allHitsNode ray Transform.identity 0 s.meshes [] s.root).1

/-- The scene raycast is the first minimum of the scene's hit list. -/
theorem raycast_closest_hit_eq_firstMin (s : Scene) (ray : Ray3) :
    s.raycast_closest_hit ray = firstMin (s.allHits ray) := by
  rw [Scene.raycast_closest_hit, Scene.allHits,
    raycastNode_spec ray Transform.identity 0 s.meshes [] s.root]

/-- C2: for every scene and ray, `raycast_closest_hit` returns `none`
exactly when no triangle of any mesh leaf reached by the pre-order traversal
is hit; and when it returns a hit `h`, `h` occurs in the traversal-ordered
list of all hits (each annotated with its leaf's EdgeId path), every hit
found earlier in traversal order is strictly farther (so `h` attains the
global minimum of world-space distance and wins ties by traversal order),
and every hit found later is at least as far. -/
theorem raycast_closest_hit_spec (s : Scene) (ray : Ray3) :
    (s.raycast_closest_hit ray = none ↔ s.allHits ray = []) ∧
    (∀ h, s.raycast_closest_hit ray = some h →
      ∃ pre post, s.allHits ray = pre ++ h :: post ∧
        (∀ x ∈ pre, h.distance < x.distance) ∧
        (∀ x ∈ post, h.distance ≤ x.distance)) := by
  constructor
  · rw [raycast_closest_hit_eq_firstMin]
    exact firstMin_eq_none_iff (s.allHits ray)
  · intro h hh
    rw [raycast_closest_hit_eq_firstMin] at hh
    exact firstMin_some (s.allHits ray) h hh

/-- C2 witness scene: a root with a single model edge (id 7) referencing the
registered triangle mesh. -/
def c2Scene : Scene :=
  ⟨.mk Transform.identity [.mk 7 (.model 0)], false,
    [(0, ⟨.mesh triMeshExample, "triangle"⟩)], [], true, none⟩

/-- C2 witness ray: origin `(1/4, 1/4, -1)`, direction `(0, 0, 1)` — it hits
the registered triangle at `(1/4, 1/4, 0)` with `t = 1`. -/
def c2Ray : Ray3 :=
  ⟨Point3.new (1/4) (1/4) (-1), ⟨⟨0, 0, 1⟩⟩⟩

/-- The hit the C2 witness raycast returns: world position `(1/4, 1/4, 0)`,
squared world distance `1`, object id `0`, selection path `[7]`. -/
def c2Hit : WorldHitResponse :=
  ⟨⟨Point3.new (1/4) (1/4) 0, ⟨⟨0, 0, 1⟩⟩⟩, 1, 0, [7]⟩

/-- The identity transform leaves the C2 witness ray unchanged. -/
theorem c2Ray_inverse_identity :
    c2Ray.inverseTransformBy Transform.identity = c2Ray := by
  norm_num [Ray3.inverseTransformBy, Point3.inverseTransformBy,
    Direction3.inverseTransformBy, Vec3.inverseTransformBy,
    rotateByNormalizedQuat, quatSandwich, Quat.conj, Quat.normSq,
    Transform.identity, Vec3.dot, Vec3.cross, c2Ray, Point3.new]

/-- Möller–Trumbore parameter values at the C2 witness ray and the triangle
`(0,0,0), (1,0,0), (0,1,0)`: `det = -1`, `u = 1/4`, `v = 1/4`, `t = 1`. -/
theorem c2_mt_values :
    mtDet c2Ray uvRejectA uvRejectB uvRejectC = -1 ∧
    mtU c2Ray uvRejectA uvRejectB uvRejectC = 1/4 ∧
    mtV c2Ray uvRejectA uvRejectB uvRejectC = 1/4 ∧
    mtT c2Ray uvRejectA uvRejectB uvRejectC = 1 := by
  norm_num [mtDet, mtU, mtV, mtT, mtS, mtEdge1, mtEdge2, mtRayEdge2Plane,
    mtSEdge1Plane, Vec3.inner, Vec3.dot, Vec3.wedge, Vec3.wedgeBivec,
    Bivec3.dual, c2Ray, uvRejectA, uvRejectB, uvRejectC, Point3.new]

/-- The intersection of the C2 witness ray with the triangle. -/
theorem c2_mt_hit :
    mollerTrumboreIntersectionExteriorAlgebra c2Ray uvRejectA uvRejectB
        uvRejectC
      = some ⟨Point3.new (1/4) (1/4) 0, ⟨⟨0, 0, 1⟩⟩⟩ := by
  obtain ⟨hdet, hu, hv, ht⟩ := c2_mt_values
  unfold mollerTrumboreIntersectionExteriorAlgebra
  rw [hdet, hu, hv, ht]
  norm_num [f32Epsilon, c2Ray, Point3.new]

/-- The three vertex fetches of the registered triangle mesh. -/
theorem c2_mesh_points :
    meshPoint triMeshExample.vertex_coords 0 = uvRejectA ∧
    meshPoint triMeshExample.vertex_coords 1 = uvRejectB ∧
    meshPoint triMeshExample.vertex_coords 2 = uvRejectC := by
  refine ⟨?_, ?_, ?_⟩ <;> rfl

/-- Identity world transform leaves the local hit response unchanged. -/
theorem c2_hit_world :
    HitResponse.transformBy ⟨Point3.new (1/4) (1/4) 0, ⟨⟨0, 0, 1⟩⟩⟩
        Transform.identity
      = ⟨Point3.new (1/4) (1/4) 0, ⟨⟨0, 0, 1⟩⟩⟩ := by
  norm_num [HitResponse.transformBy, Point3.transformBy,
    Direction3.transformBy, Vec3.transformBy, rotateByNormalizedQuat,
    quatSandwich, Quat.normSq, Transform.identity, Vec3.dot, Vec3.cross,
    Point3.new]

/-- The model raycast at the C2 witness leaf. -/
theorem c2_raycast_model :
    raycast_model c2Ray (.mesh triMeshExample) Transform.identity 0
      = some ⟨⟨Point3.new (1/4) (1/4) 0, ⟨⟨0, 0, 1⟩⟩⟩, 1, 0, []⟩ := by
  obtain ⟨hp0, hp1, hp2⟩ := c2_mesh_points
  unfold raycast_model
  simp only [ModelVariant.get_mesh]
  have hchunks : chunks3 triMeshExample.face_indices = [(0, 1, 2)] := rfl
  rw [hchunks, List.foldl_cons, List.foldl_nil, c2Ray_inverse_identity]
  simp only [hp0, hp1, hp2, c2_mt_hit, c2_hit_world, replaceIfCloser_none]
  norm_num [Vec3.lengthSq]

/-- The C2 witness raycast returns the witness hit. -/
theorem c2_raycast_eval :
    c2Scene.raycast_closest_hit c2Ray = some c2Hit := by
  simp only [Scene.raycast_closest_hit, c2Scene, raycastNode, raycastEdges,
    compose_identity_identity, MeshRegistry.get, List.find?,
    beq_self_eq_true, Option.map_some', c2_raycast_model, mergeClosest,
    replaceIfCloser_none, List.nil_append]
  rfl

/-- Witness for `raycast_closest_hit_spec` at the concrete scene and ray: the
raycast returns the witness hit, which therefore heads a decomposition of the
scene's hit list with strictly farther hits before it and no closer hit after
it. -/
theorem raycast_closest_hit_spec_witness :
    ∃ pre post, c2Scene.allHits c2Ray = pre ++ c2Hit :: post ∧
      (∀ x ∈ pre, c2Hit.distance < x.distance) ∧
      (∀ x ∈ post, c2Hit.distance ≤ x.distance) :=
  (raycast_closest_hit_spec c2Scene c2Ray).2 c2Hit c2_raycast_eval

end DeltaBrush
